import Mathlib

/-!
# analytics-controller: dispatch and delivery engine

A shallow embedding of the Go sources of `ahsayde/analytics-controller`:

* `api/v1alpha1/eventset_types.go` : `EventFilter.Match`
* `internal/watcher/watcher.go`    : `Watcher.handler`, `RegisterSink`, `RemoveSink`
* `internal/sinks/elastic/elastic.go` : `ElasticSink.worker`, `createBody`
* `internal/sinks/file/file.go`       : `FilesystemSink.Write`, `worker`

Go strings are Lean `String`s, Go slices whose nil-ness is inspected are
`Option (List _)` (`none` is the nil slice), Go maps are finite functions
`String → Option _`, and side effects are recorded in explicit logs.
-/

namespace Analytics

/-! ## Data model (k8s.io/api/core/v1, fields read by this repository) -/

/-- The `v1.ObjectReference` fields read by the filter and the sqlite sink. -/
structure ObjectReference where
  UID : String := ""
  APIVersion : String := ""
  Kind : String := ""
  Name : String := ""
  Namespace : String := ""
deriving DecidableEq, Repr, Inhabited

/-- The `v1.Event` fields read by this repository. The derived `Inhabited`
instance is the Go zero value (every field empty or zero). -/
structure Event where
  UID : String := ""
  Type_ : String := ""
  Reason : String := ""
  Message : String := ""
  Action : String := ""
  Count : Int := 0
  ReportingController : String := ""
  ReportingInstance : String := ""
  FirstTimestamp : Int := 0
  LastTimestamp : Int := 0
  InvolvedObject : ObjectReference := {}
deriving DecidableEq, Repr, Inhabited

/-! ## api/v1alpha1/eventset_types.go -/

/-- Go `EventResource`: a pattern over the involved object. -/
structure EventResource where
  APIVersion : String := ""
  Kind : String := ""
  Name : String := ""
  Namespace : String := ""
deriving DecidableEq, Repr, Inhabited

/-- Go `EventFilter`. `Reasons` and `Resources` are slices compared with
`nil` by `Match`, hence `Option (List _)`. -/
structure EventFilter where
  Type_ : String := ""
  Reasons : Option (List String) := none
  Resources : Option (List EventResource) := none
deriving DecidableEq, Repr, Inhabited

/-- The loop of lines 67-72: `matched` after ranging over `f.Reasons`. -/
def reasonsMatched (eventReason : String) : List String → Bool
  | [] => false
  | reason :: rest =>
    if reason = eventReason then true else reasonsMatched eventReason rest

/-- The body of the resources loop, lines 80-100: the value of `m`. -/
def resourceM (resource : EventResource) (obj : ObjectReference) : Bool :=
  let m := true
  let m := if resource.APIVersion ≠ "" then
      (if resource.APIVersion ≠ obj.APIVersion then false else m) else m
  let m := if resource.Kind ≠ "" then
      (if resource.Kind ≠ obj.Kind then false else m) else m
  let m := if resource.Name ≠ "" then
      (if resource.Name ≠ obj.Name then false else m) else m
  let m := if resource.Namespace ≠ "" then
      (if resource.Namespace ≠ obj.Namespace then false else m) else m
  m

/-- The loop of lines 79-105: `matched` after ranging over `f.Resources`. -/
def resourcesMatched (obj : ObjectReference) : List EventResource → Bool
  | [] => false
  | resource :: rest =>
    if resourceM resource obj then true else resourcesMatched obj rest

/-- Go `func (f *EventFilter) Match(event *v1.Event) bool`. -/
def EventFilter.Match (f : EventFilter) (event : Event) : Bool :=
  if f.Type_ ≠ "" ∧ f.Type_ ≠ event.Type_ then false
  else
    let reasonsOk :=
      match f.Reasons with
      | none => true
      | some reasons => reasonsMatched event.Reason reasons
    if !reasonsOk then false
    else
      let resourcesOk :=
        match f.Resources with
        | none => true
        | some resources => resourcesMatched event.InvolvedObject resources
      if !resourcesOk then false
      else true

/-- The sub-field condition of the specification: a pattern sub-field is
empty or equals the corresponding field of the involved object. -/
def PatternAccepts (P : EventResource) (obj : ObjectReference) : Prop :=
  (P.APIVersion = "" ∨ P.APIVersion = obj.APIVersion) ∧
  (P.Kind = "" ∨ P.Kind = obj.Kind) ∧
  (P.Name = "" ∨ P.Name = obj.Name) ∧
  (P.Namespace = "" ∨ P.Namespace = obj.Namespace)

/-! ## Effects: errors, log records, calls on sinks -/

/-- Go `error` values; `io.EOF` is the only one the code tells apart. -/
inductive Error where
  | EOF
  | other (msg : String)
deriving DecidableEq, Repr, Inhabited

/-- One `log.Log.Error(err, msg, keysAndValues...)` record. -/
structure LogEntry where
  err : Option Error
  msg : String
  keysAndValues : List String
deriving DecidableEq, Repr, Inhabited

/-- A method call made on a sink object, identified by its reference. -/
inductive Call where
  | Write (ref : Nat) (event : Event)
  | Start (ref : Nat)
  | Stop (ref : Nat)
deriving DecidableEq, Repr, Inhabited

/-- Go `type Sink interface` of `internal/watcher/sink.go`: an object
reference with its three methods, each acting on the outside world `W`
and returning a Go `error` (`none` is `nil`). -/
structure Sink (W : Type) where
  ref : Nat
  Write : Event → W → W × Option Error
  Start : W → W × Option Error
  Stop : W → W × Option Error

/-- The state threaded through the watcher operations: the outside world,
the calls made on sinks so far, and the log output so far. -/
structure Env (W : Type) where
  world : W
  calls : List Call
  logs : List LogEntry

/-- Appends one `log.Log.Error` record. -/
def Env.logError {W : Type} (env : Env W) (err : Option Error) (msg : String)
    (keysAndValues : List String) : Env W :=
  { env with logs := env.logs ++ [⟨err, msg, keysAndValues⟩] }

/-- The call `sink.Write(ctx, event)`. -/
def callWrite {W : Type} (sink : Sink W) (event : Event) (env : Env W) :
    Env W × Option Error :=
  let r := sink.Write event env.world
  ({ env with world := r.1, calls := env.calls ++ [Call.Write sink.ref event] }, r.2)

/-- The call `sink.Start(ctx)`. -/
def callStart {W : Type} (sink : Sink W) (env : Env W) : Env W × Option Error :=
  let r := sink.Start env.world
  ({ env with world := r.1, calls := env.calls ++ [Call.Start sink.ref] }, r.2)

/-- The call `sink.Stop()`. -/
def callStop {W : Type} (sink : Sink W) (env : Env W) : Env W × Option Error :=
  let r := sink.Stop env.world
  ({ env with world := r.1, calls := env.calls ++ [Call.Stop sink.ref] }, r.2)

/-! ## internal/watcher/watcher.go -/

/-- Go `v1.LocalObjectReference`. -/
structure LocalObjectReference where
  Name : String := ""
deriving DecidableEq, Repr, Inhabited

/-- Go `EventSetSpec`. -/
structure EventSetSpec where
  Match : EventFilter := {}
  SinkRefs : List LocalObjectReference := []
deriving DecidableEq, Repr, Inhabited

/-- Go `EventSet` (the fields the watcher reads). -/
structure EventSet where
  Name : String := ""
  Spec : EventSetSpec := {}
deriving DecidableEq, Repr, Inhabited

/-- Go `Watcher`: the registry `sinks map[string]Sink`. -/
structure Watcher (W : Type) where
  sinks : String → Option (Sink W)

/-- The `interface{}` argument of `handler`: a `*v1.Event` or anything else. -/
inductive Obj where
  | event (e : Event)
  | other
deriving DecidableEq, Repr, Inhabited

/-- The inner loop of `handler`, lines 76-86: ranges over `SinkRefs`. -/
def sinkRefsLoop {W : Type} (w : Watcher W) (event : Event) :
    List LocalObjectReference → Env W → Env W
  | [], env => env
  | ref :: rest, env =>
    match w.sinks ref.Name with
    | none =>
      sinkRefsLoop w event rest (env.logError none "sink not found" ["sink", ref.Name])
    | some sink =>
      let r := callWrite sink event env
      match r.2 with
      | some err =>
        sinkRefsLoop w event rest
          (r.1.logError (some err) "failed to write event to sink" ["sink", ref.Name])
      | none => sinkRefsLoop w event rest r.1

/-- The outer loop of `handler`, lines 74-87: ranges over `eventSets.Items`. -/
def eventSetsLoop {W : Type} (w : Watcher W) (event : Event) :
    List EventSet → Env W → Env W
  | [], env => env
  | eventSet :: rest, env =>
    if eventSet.Spec.Match.Match event then
      eventSetsLoop w event rest (sinkRefsLoop w event eventSet.Spec.SinkRefs env)
    else eventSetsLoop w event rest env

/-- Go `func (w *Watcher) handler(ctx, obj)`. `listed` is the result of
`w.mgr.GetCache().List(ctx, &eventSets)`. -/
def Watcher.handler {W : Type} (w : Watcher W) (listed : Except Error (List EventSet))
    (obj : Obj) (env : Env W) : Env W :=
  match obj with
  | Obj.other => env
  | Obj.event event =>
    match listed with
    | Except.error err => env.logError (some err) "failed to list event sets" []
    | Except.ok items => eventSetsLoop w event items env

/-- The sinks the specification says one dispatch writes to, in order: for
each rule-set in list order whose rule matches, for each name of its binding
list in order, the registry entry under that name when there is one. -/
def dispatchTargets {W : Type} (w : Watcher W) (sets : List EventSet) (E : Event) :
    List (Sink W) :=
  (sets.filter (fun es => es.Spec.Match.Match E)).flatMap
    (fun es => es.Spec.SinkRefs.filterMap (fun r => w.sinks r.Name))

/-! ### api/v1alpha1/sink_types.go -/

/-- Go `FileSink` configuration. -/
structure FileSink where
  Path : String := ""
deriving DecidableEq, Repr, Inhabited

/-- Go `SqliteSink` configuration. -/
structure SqliteSink where
  Path : String := ""
deriving DecidableEq, Repr, Inhabited

/-- Go `WebhookSink` configuration; `Headers` is a `map[string]string`. -/
structure WebhookSink where
  Endpoint : String := ""
  Headers : String → Option String := fun _ => none

/-- Go `ElasticSink` configuration of `sink_types.go`. -/
structure ElasticSinkConf where
  Address : String := ""
  IndexName : String := ""
  Username : String := ""
  Password : String := ""
  Mode : String := ""
  BatchSize : Int := 0
  BatchExpiry : Int := 0
deriving DecidableEq, Repr, Inhabited

/-- Go `func (os *ElasticSink) SetSecretConf(secretConf map[string]string)`. -/
def ElasticSinkConf.SetSecretConf (os : ElasticSinkConf) (secretConf : String → Option String) :
    ElasticSinkConf :=
  let os1 := match secretConf "username" with
    | some username => { os with Username := username }
    | none => os
  match secretConf "password" with
  | some password => { os1 with Password := password }
  | none => os1

/-- Go `v1.SecretReference`. -/
structure SecretReference where
  Name : String := ""
  Namespace : String := ""
deriving DecidableEq, Repr, Inhabited

/-- Go `SinkSpec`: four optional variants (nil pointers are `none`). -/
structure SinkSpec where
  File : Option FileSink := none
  SQLite : Option SqliteSink := none
  Webhook : Option WebhookSink := none
  Elastic : Option ElasticSinkConf := none
  SecretRef : Option SecretReference := none

/-- Go `v1alpha1.Sink` (the fields the watcher reads). -/
structure SinkCR where
  Name : String := ""
  Spec : SinkSpec := {}

/-- The four sink constructors called by `RegisterSink` (`fileSink.New`,
`sqliteSink.New`, `webhookSink.New`, `elasticSink.New`): each acts on the
outside world and returns a sink or an error. -/
structure Constructors (W : Type) where
  fileNew : String → W → W × Except Error (Sink W)
  sqliteNew : String → W → W × Except Error (Sink W)
  webhookNew : String → (String → Option String) → W → W × Except Error (Sink W)
  elasticNew : String → String → String → String → Int → Int → W → W × Except Error (Sink W)

/-- How a Go call ends: it returns a value, or the goroutine crashes with a
run-time error. -/
inductive Outcome (α : Type) where
  | returned (a : α)
  | crashed (reason : String)
deriving DecidableEq, Repr

/-- What `RegisterSink` leaves behind. -/
structure Registered (W : Type) where
  watcher : Watcher W
  env : Env W
  out : Outcome (Option Error)

/-- Lines 94-122 of `RegisterSink`: the if / else-if chain that builds the
sink. `Except.error` is the early `return err`; `Except.ok none` is the
nil interface value left in `sink` when no branch is taken. -/
def buildSink {W : Type} (K : Constructors W) (cr : SinkCR) (secretConf : String → Option String)
    (world : W) : W × Except Error (Option (Sink W)) :=
  match cr.Spec.File with
  | some file =>
    match K.fileNew file.Path world with
    | (world1, Except.error err) => (world1, Except.error err)
    | (world1, Except.ok sink) => (world1, Except.ok (some sink))
  | none =>
    match cr.Spec.SQLite with
    | some sqlite =>
      match K.sqliteNew sqlite.Path world with
      | (world1, Except.error err) => (world1, Except.error err)
      | (world1, Except.ok sink) => (world1, Except.ok (some sink))
    | none =>
      match cr.Spec.Webhook with
      | some webhook =>
        match K.webhookNew webhook.Endpoint webhook.Headers world with
        | (world1, Except.error err) => (world1, Except.error err)
        | (world1, Except.ok sink) => (world1, Except.ok (some sink))
      | none =>
        match cr.Spec.Elastic with
        | some elastic0 =>
          let elastic := elastic0.SetSecretConf secretConf
          match K.elasticNew elastic.Address elastic.IndexName elastic.Username
              elastic.Password elastic.BatchSize elastic.BatchExpiry world with
          | (world1, Except.error err) => (world1, Except.error err)
          | (world1, Except.ok sink) => (world1, Except.ok (some sink))
        | none => (world, Except.ok none)

/-- The map assignment `m[key] = value`. -/
def mapSet {V : Type} (m : String → Option V) (key : String) (value : V) : String → Option V :=
  fun k => if k = key then some value else m k

/-- The builtin `delete(m, key)`. -/
def mapDelete {V : Type} (m : String → Option V) (key : String) : String → Option V :=
  fun k => if k = key then none else m k

/-- Go `func (w *Watcher) RegisterSink(ctx, cr, secretConf) error`. Calling
`sink.Start` on the nil interface value is a nil-pointer dereference. -/
def Watcher.RegisterSink {W : Type} (K : Constructors W) (w : Watcher W) (cr : SinkCR)
    (secretConf : String → Option String) (env : Env W) : Registered W :=
  match buildSink K cr secretConf env.world with
  | (world1, Except.error err) =>
    ⟨w, { env with world := world1 }, Outcome.returned (some err)⟩
  | (world1, Except.ok none) =>
    ⟨w, { env with world := world1 },
      Outcome.crashed "invalid memory address or nil pointer dereference"⟩
  | (world1, Except.ok (some sink)) =>
    match callStart sink { env with world := world1 } with
    | (env1, some err) => ⟨w, env1, Outcome.returned (some err)⟩
    | (env1, none) =>
      ⟨{ w with sinks := mapSet w.sinks cr.Name sink }, env1, Outcome.returned none⟩

/-- Go `func (w *Watcher) RemoveSink(name string)`. -/
def Watcher.RemoveSink {W : Type} (w : Watcher W) (name : String) (env : Env W) :
    Watcher W × Env W :=
  match w.sinks name with
  | some sink =>
    let w1 : Watcher W := { w with sinks := mapDelete w.sinks name }
    match callStop sink env with
    | (env1, some err) => (w1, env1.logError (some err) "failed to stop sink" [])
    | (env1, none) => (w1, env1)
  | none => (w, env)

/-! ## internal/sinks/elastic/elastic.go -/

/-- A Go slice seen through `len`, `cap`, `append` and `s[:0]`: its elements
and the capacity of its backing array. -/
structure Slice (α : Type) where
  elems : List α
  cap : Nat
deriving DecidableEq, Repr

/-- Go `make([]T, 0, cap)`. -/
def Slice.make {α : Type} (cap : Nat) : Slice α := ⟨[], cap⟩

/-- Go `append(s, x)`: in place while `len(s) < cap(s)`, otherwise the
run time allocates a backing array of capacity `grow (cap s)`. -/
def Slice.append {α : Type} (grow : Nat → Nat) (s : Slice α) (x : α) : Slice α :=
  if s.elems.length < s.cap then ⟨s.elems ++ [x], s.cap⟩
  else ⟨s.elems ++ [x], grow s.cap⟩

/-- Go `s[:0]`: no elements, same backing array. -/
def Slice.reset {α : Type} (s : Slice α) : Slice α := ⟨[], s.cap⟩

/-- Go `ElasticSink` (the fields the worker reads and writes). -/
structure ElasticSink where
  indexName : String
  eventBatch : Slice Event
  batchExpiry : Int
deriving DecidableEq, Repr

/-- Two's-complement wrap-around of a 64-bit Go `int` / `time.Duration`. -/
def wrapInt64 (x : Int) : Int :=
  (x + 9223372036854775808) % 18446744073709551616 - 9223372036854775808

/-- Go `elasticSink.New`, lines 45-64. `clientErr` is the error result of
`elastic.NewClient`; `make` with a negative capacity is a run-time error.
`batchExpiry` is in nanoseconds (`time.Second` is 10^9), computed in 64-bit
arithmetic. -/
def ElasticSink.New (clientErr : Option Error) (index : String) (batchSize batchExpriry : Int) :
    Outcome (Except Error ElasticSink) :=
  match clientErr with
  | some err => Outcome.returned (Except.error err)
  | none =>
    if batchSize < 0 then Outcome.crashed "makeslice: cap out of range"
    else Outcome.returned (Except.ok
      { indexName := index
        eventBatch := Slice.make batchSize.toNat
        batchExpiry := wrapInt64 (batchExpriry * 1000000000) })

/-- The case taken by one round of the `select` in `worker`. -/
inductive Select where
  | recv (result : Event)
  | tick
  | done
deriving DecidableEq, Repr

/-- What one round of the worker does to the outside. -/
inductive Action where
  | writeBatch (events : List Event)
  | timerReset
deriving DecidableEq, Repr

/-- The result of one round of the worker loop. -/
structure Round where
  es : ElasticSink
  actions : List Action
  returned : Bool
deriving DecidableEq, Repr

/-- One round of the `for { select { ... } }` of `worker`, lines 84-104. -/
def ElasticSink.step (grow : Nat → Nat) (es : ElasticSink) : Select → Round
  | Select.recv result =>
    let es1 := { es with eventBatch := es.eventBatch.append grow result }
    if es1.eventBatch.elems.length = es1.eventBatch.cap then
      ⟨{ es1 with eventBatch := es1.eventBatch.reset },
        [Action.writeBatch es1.eventBatch.elems, Action.timerReset], false⟩
    else ⟨es1, [], false⟩
  | Select.tick =>
    if es.eventBatch.elems.length > 0 then
      ⟨{ es with eventBatch := es.eventBatch.reset },
        [Action.writeBatch es.eventBatch.elems], false⟩
    else ⟨es, [], false⟩
  | Select.done =>
    if es.eventBatch.elems.length > 0 then
      ⟨es, [Action.writeBatch es.eventBatch.elems], true⟩
    else ⟨es, [], true⟩

/-- The `for { select { ... } }` loop of `worker`, lines 84-104, run over a
schedule of select cases: the rounds are taken in order until one returns. -/
def ElasticSink.workerLoop (grow : Nat → Nat) (es : ElasticSink) : List Select → Round
  | [] => ⟨es, [], false⟩
  | c :: rest =>
    let r := es.step grow c
    if r.returned then r
    else
      let r2 := ElasticSink.workerLoop grow r.es rest
      ⟨r2.es, r.actions ++ r2.actions, r2.returned⟩

/-- Go `func (es *ElasticSink) worker(ctx) error`: `time.NewTicker` crashes
on a non-positive interval, otherwise the loop runs. -/
def ElasticSink.worker (grow : Nat → Nat) (es : ElasticSink) (schedule : List Select) :
    Outcome Round :=
  if es.batchExpiry ≤ 0 then Outcome.crashed "non-positive interval for NewTicker"
  else Outcome.returned (es.workerLoop grow schedule)

/-- The batches passed to `writeBatch`, in order. -/
def flushes : List Action → List (List Event)
  | [] => []
  | Action.writeBatch events :: rest => events :: flushes rest
  | Action.timerReset :: rest => flushes rest

/-- The events received from the channel, in order. -/
def received : List Select → List Event
  | [] => []
  | Select.recv result :: rest => result :: received rest
  | _ :: rest => received rest

/-- Go `Index`, with its JSON field names `_index` and `_id`. -/
structure Index where
  IndexName : String
  Id : String
deriving DecidableEq, Repr

/-- Go `IndexTemplate`, with its JSON field name `index`. -/
structure IndexTemplate where
  Index : Index
deriving DecidableEq, Repr

/-- The part of `encoding/json` the sink relies on: the JSON text of a Go
string, and the marshalling of an event (which may fail). -/
structure Json where
  string : String → String
  event : Event → Except Error String

/-- The `encoding/json` marshalling of an `IndexTemplate`, following the
struct tags of lines 27-34; marshalling two string fields cannot fail. -/
def Json.indexTemplate (J : Json) (t : IndexTemplate) : Except Error String :=
  Except.ok ("\x7b\"index\":\x7b\"_index\":" ++ J.string t.Index.IndexName ++
    ",\"_id\":" ++ J.string t.Index.Id ++ "\x7d\x7d")

/-- Go `(*json.Encoder).Encode` on a `bytes.Buffer`: on success the JSON
text and a newline are written, on failure nothing is written. -/
def Encode (marshalled : Except Error String) (buf : String) : String × Option Error :=
  match marshalled with
  | Except.ok text => (buf ++ text ++ "\n", none)
  | Except.error err => (buf, some err)

/-- The `if err != io.EOF { log.Log.Error(err, "") }` of `createBody`. -/
def logUnlessEOF (logs : List LogEntry) (err : Error) : List LogEntry :=
  if err ≠ Error.EOF then logs ++ [⟨some err, "", []⟩] else logs

/-- The loop of `createBody`, lines 138-151. -/
def createBodyLoop (J : Json) (indexName : String) :
    List Event → String → List LogEntry → String × List LogEntry
  | [], buf, logs => (buf, logs)
  | event :: rest, buf, logs =>
    let index : IndexTemplate := { Index := { IndexName := indexName, Id := event.UID } }
    let r1 := Encode (J.indexTemplate index) buf
    let logs1 := match r1.2 with
      | some err => logUnlessEOF logs err
      | none => logs
    let r2 := Encode (J.event event) r1.1
    match r2.2 with
    | some err => (r2.1, logUnlessEOF logs1 err)
    | none => createBodyLoop J indexName rest r2.1 logs1

/-- Go `func (es *ElasticSink) createBody(events) (bytes.Buffer, error)`:
the buffer, the returned error (always nil) and the log output. -/
def ElasticSink.createBody (J : Json) (es : ElasticSink) (events : List Event) :
    String × Option Error × List LogEntry :=
  let r := createBodyLoop J es.indexName events "" []
  (r.1, none, r.2)

/-- The framing record of the specification for one event. -/
def framingRecord (J : Json) (I : String) (e : Event) : String :=
  "\x7b\"index\":\x7b\"_index\":" ++ J.string I ++ ",\"_id\":" ++ J.string e.UID ++ "\x7d\x7d"

/-- The records of the specification for a batch, two per event:
the framing record, then the serialized event. -/
def bulkRecords (J : Json) (enc : Event → String) (I : String) (events : List Event) :
    List String :=
  events.flatMap (fun e => [framingRecord J I e, enc e])

/-- A body made of newline-terminated records: each record, in order,
followed by one newline. -/
def newlineTerminated : List String → String
  | [] => ""
  | r :: rest => r ++ "\n" ++ newlineTerminated rest

/-! ## Channels and runs of a sink with its callers -/

/-- A buffered Go `chan v1.Event`: the queued events, whether the channel
has been closed, and the buffer size given to `make`. -/
structure Chan where
  queue : List Event
  closed : Bool
  cap : Nat
deriving DecidableEq, Repr

/-- Go `make(chan v1.Event, cap)`. -/
def Chan.make (cap : Nat) : Chan := ⟨[], false, cap⟩

/-- How a send `ch <- e` ends. -/
inductive Sent where
  | ok (ch : Chan)
  | blocked
  | crashed
deriving DecidableEq, Repr

/-- Go `ch <- e`: a send on a closed channel is a run-time error, a send on
a full buffer blocks, otherwise the event is queued. -/
def Chan.send (ch : Chan) (e : Event) : Sent :=
  if ch.closed then Sent.crashed
  else if ch.queue.length < ch.cap then Sent.ok { ch with queue := ch.queue ++ [e] }
  else Sent.blocked

/-- Go `<-ch` (one-value form): the oldest queued event; on an empty closed
channel the zero value, at once; on an empty open channel the receive is not
ready (`none`). -/
def Chan.recv (ch : Chan) : Option (Event × Chan) :=
  match ch.queue with
  | e :: rest => some (e, { ch with queue := rest })
  | [] => if ch.closed then some (default, ch) else none

/-- Go `close(ch)`: closing a closed channel is a run-time error (`none`). -/
def Chan.close (ch : Chan) : Option Chan :=
  if ch.closed then none else some { ch with closed := true }

/-- One thing that happens to a running bulk-index sink: a caller runs
`Write` or `Stop`, or the worker takes one case of its `select`. -/
inductive SinkOp where
  | Write (event : Event)
  | Stop
  | recv
  | tick
  | done
deriving DecidableEq, Repr

/-- A bulk-index sink in operation: the sink with its channel
(`resultChanSize` slots), what the worker has done so far, the events
passed to `Write` calls that returned, and whether the worker has returned
or the process has crashed. -/
structure ElasticRun where
  es : ElasticSink
  eventChan : Chan
  actions : List Action
  written : List Event
  returned : Bool
  crashed : Bool
deriving DecidableEq, Repr

/-- The constant `resultChanSize` of `elastic.go`. -/
def resultChanSize : Nat := 50

/-- A sink as `New` returns it and `Start` has launched it. -/
def ElasticRun.start (es : ElasticSink) : ElasticRun :=
  ⟨es, Chan.make resultChanSize, [], [], false, false⟩

/-- One operation on a running bulk-index sink. `Write` is
`es.eventChan <- event` (lines 66-69), `Stop` is `close(es.eventChan)`
(lines 77-80), the other three are the cases of the worker `select`, the
receive case taking its value from the channel. An operation that is not
ready (blocked send, receive on an empty open channel, any worker case
after the worker returned) leaves the state unchanged. -/
def ElasticRun.step (grow : Nat → Nat) (s : ElasticRun) : SinkOp → ElasticRun
  | SinkOp.Write event =>
    if s.crashed then s
    else
      match s.eventChan.send event with
      | Sent.ok ch => { s with eventChan := ch, written := s.written ++ [event] }
      | Sent.blocked => s
      | Sent.crashed => { s with crashed := true }
  | SinkOp.Stop =>
    if s.crashed then s
    else
      match s.eventChan.close with
      | some ch => { s with eventChan := ch }
      | none => { s with crashed := true }
  | SinkOp.recv =>
    if s.crashed || s.returned then s
    else
      match s.eventChan.recv with
      | some (result, ch) =>
        let r := s.es.step grow (Select.recv result)
        { s with es := r.es, eventChan := ch, actions := s.actions ++ r.actions,
                 returned := r.returned }
      | none => s
  | SinkOp.tick =>
    if s.crashed || s.returned then s
    else
      let r := s.es.step grow Select.tick
      { s with es := r.es, actions := s.actions ++ r.actions, returned := r.returned }
  | SinkOp.done =>
    if s.crashed || s.returned then s
    else
      let r := s.es.step grow Select.done
      { s with es := r.es, actions := s.actions ++ r.actions, returned := r.returned }

/-- A run: the operations taken one after another. -/
def ElasticRun.run (grow : Nat → Nat) (s : ElasticRun) : List SinkOp → ElasticRun
  | [] => s
  | op :: rest => ElasticRun.run grow (s.step grow op) rest

/-! ## internal/sinks/file/file.go -/

/-- One thing that happens to a running file sink: a caller runs `Write`,
or the worker takes one case of its `select`. -/
inductive FileOp where
  | Write (event : Event)
  | recv
  | done
deriving DecidableEq, Repr

/-- A file sink in operation: its channel (50 slots), the events the worker
has passed to `json.NewEncoder(f.file).Encode`, in order, the events passed
to `Write` calls that returned, and whether the worker has returned. -/
structure FileRun where
  eventChan : Chan
  encoded : List Event
  written : List Event
  returned : Bool
deriving DecidableEq, Repr

/-- A file sink as `New` returns it and `Start` has launched it. -/
def FileRun.start : FileRun := ⟨Chan.make 50, [], [], false⟩

/-- One operation on a running file sink: `Write` is `s.eventChan <- event`
(lines 30-33), `recv` and `done` are the two cases of the worker `select`
(lines 35-46). -/
def FileRun.step (s : FileRun) : FileOp → FileRun
  | FileOp.Write event =>
    match s.eventChan.send event with
    | Sent.ok ch => { s with eventChan := ch, written := s.written ++ [event] }
    | Sent.blocked => s
    | Sent.crashed => s
  | FileOp.recv =>
    if s.returned then s
    else
      match s.eventChan.recv with
      | some (event, ch) => { s with eventChan := ch, encoded := s.encoded ++ [event] }
      | none => s
  | FileOp.done =>
    if s.returned then s else { s with returned := true }

/-- A run: the operations taken one after another. -/
def FileRun.run (s : FileRun) : List FileOp → FileRun
  | [] => s
  | op :: rest => FileRun.run (s.step op) rest

/-! ## Dispatching a sequence of events -/

/-- The event source calls `handler` once per event, in order; the cache
lists the same rule-sets each time. -/
def Watcher.dispatchAll {W : Type} (w : Watcher W) (sets : List EventSet) :
    List Event → Env W → Env W
  | [], env => env
  | E :: rest, env =>
    Watcher.dispatchAll w sets rest (w.handler (Except.ok sets) (Obj.event E) env)

/-- The sink names one dispatch goes through, in order: the binding lists
of the rule-sets that match, concatenated. -/
def dispatchNames (sets : List EventSet) (E : Event) : List String :=
  (sets.filter (fun es => es.Spec.Match.Match E)).flatMap
    (fun es => es.Spec.SinkRefs.map (fun r => r.Name))

/-! ## Sending a batch: `writeBatch` and the context -/

/-- Go `esapi.BulkRequest` as `writeBatch` builds it: the target index and
the body. -/
structure BulkRequest where
  Index : String
  Body : String
deriving DecidableEq, Repr

/-- Go `esapi.Response` as `writeBatch` reads it: the status code and the
result of `ioutil.ReadAll(resp.Body)` (the bytes read and the error). -/
structure Response where
  StatusCode : Nat
  ReadAll : String × Option Error

/-- The search-index endpoint behind `es.client`: what comes back for a
bulk request that is sent, a response or a transport error. -/
structure Client where
  serve : BulkRequest → Except Error Response

/-- Go `req.Do(ctx, es.client)`: the request that reached the endpoint, if
any, and the result. The HTTP transport does not send a request whose
context is already cancelled; it returns the context error
(`context canceled`). -/
def BulkRequest.Do (req : BulkRequest) (ctxDone : Bool) (client : Client) :
    Option BulkRequest × Except Error Response :=
  if ctxDone then (none, Except.error (Error.other "context canceled"))
  else (some req, client.serve req)

/-- Go `func (es *ElasticSink) writeBatch(ctx, events)`, lines 107-133:
the requests that reached the endpoint (none or one) and the log output.
`ctxDone` tells whether `ctx` is cancelled when the call is made. -/
def ElasticSink.writeBatch (J : Json) (client : Client) (ctxDone : Bool) (es : ElasticSink)
    (events : List Event) : List BulkRequest × List LogEntry :=
  match es.createBody J events with
  | (_, some err, logs) => ([], logs ++ [⟨some err, "", []⟩])
  | (body, none, logs) =>
    let req : BulkRequest := { Index := es.indexName, Body := body }
    match req.Do ctxDone client with
    | (reached, Except.error err) => (reached.toList, logs ++ [⟨some err, "", []⟩])
    | (reached, Except.ok resp) =>
      if resp.StatusCode > 399 then
        let logs1 := match resp.ReadAll.2 with
          | some err => logs ++ [⟨some err, "", []⟩]
          | none => logs
        (reached.toList, logs1 ++ [⟨none, "failed to write events", ["body", resp.ReadAll.1]⟩])
      else (reached.toList, logs)

/-- Carries out the `writeBatch` calls of one round with the context in the
given state: the requests that reached the endpoint and the log output. -/
def ElasticSink.perform (J : Json) (client : Client) (ctxDone : Bool) (es : ElasticSink) :
    List Action → List BulkRequest × List LogEntry
  | [] => ([], [])
  | Action.writeBatch events :: rest =>
    let r := es.writeBatch J client ctxDone events
    let r2 := ElasticSink.perform J client ctxDone es rest
    (r.1 ++ r2.1, r.2 ++ r2.2)
  | Action.timerReset :: rest => ElasticSink.perform J client ctxDone es rest

/-- The shutdown round of the worker, lines 98-102: the case `<-ctx.Done()`
is taken, so `ctx` is cancelled, and `writeBatch` is called with that same
`ctx`. -/
def ElasticSink.shutdown (J : Json) (client : Client) (grow : Nat → Nat) (es : ElasticSink) :
    List BulkRequest × List LogEntry :=
  es.perform J client true (es.step grow Select.done).actions

/-! ## Concrete objects used to evaluate the code -/

/-- A sink over the trivial world whose three methods all return nil. -/
def quietSink (ref : Nat) : Sink Unit :=
  ⟨ref, fun _ world => (world, none), fun world => (world, none), fun world => (world, none)⟩

/-- Constructors over the trivial world that always succeed and return the
sink object with the given reference. -/
def quietConstructors (ref : Nat) : Constructors Unit :=
  { fileNew := fun _ world => (world, Except.ok (quietSink ref))
    sqliteNew := fun _ world => (world, Except.ok (quietSink ref))
    webhookNew := fun _ _ world => (world, Except.ok (quietSink ref))
    elasticNew := fun _ _ _ _ _ _ world => (world, Except.ok (quietSink ref)) }

/-- The reference of the sink registered under a name, if any. -/
def Watcher.refOf {W : Type} (w : Watcher W) (name : String) : Option Nat :=
  (w.sinks name).map (fun sink => sink.ref)

/-- A JSON stand-in that quotes strings without escaping and serializes an
event as the JSON text of its UID. -/
def plainJson : Json :=
  { string := fun s => "\"" ++ s ++ "\""
    event := fun e => Except.ok ("\"" ++ e.UID ++ "\"") }

/-! ## Lemmas on the filter loops -/

theorem reasonsMatched_iff (r : String) (l : List String) :
    reasonsMatched r l = true ↔ r ∈ l := by
  induction l with
  | nil => simp [reasonsMatched]
  | cons a t ih =>
    by_cases h : a = r
    · simp [reasonsMatched, h]
    · have h2 : ¬ r = a := fun e => h e.symm
      simp [reasonsMatched, h, h2, ih]

theorem resourceM_iff (P : EventResource) (obj : ObjectReference) :
    resourceM P obj = true ↔ PatternAccepts P obj := by
  unfold resourceM PatternAccepts
  by_cases h1 : P.APIVersion = "" <;> by_cases h2 : P.APIVersion = obj.APIVersion <;>
  by_cases h3 : P.Kind = "" <;> by_cases h4 : P.Kind = obj.Kind <;>
  by_cases h5 : P.Name = "" <;> by_cases h6 : P.Name = obj.Name <;>
  by_cases h7 : P.Namespace = "" <;> by_cases h8 : P.Namespace = obj.Namespace <;>
  simp [h1, h2, h3, h4, h5, h6, h7, h8]

theorem resourcesMatched_iff (obj : ObjectReference) (l : List EventResource) :
    resourcesMatched obj l = true ↔ ∃ P ∈ l, PatternAccepts P obj := by
  induction l with
  | nil => simp [resourcesMatched]
  | cons a t ih =>
    by_cases h : resourceM a obj = true
    · have := (resourceM_iff a obj).1 h
      simp [resourcesMatched, h, this]
    · have h2 : ¬ PatternAccepts a obj := fun e => h ((resourceM_iff a obj).2 e)
      simp [resourcesMatched, h, h2, ih]

theorem Match_iff (R : EventFilter) (E : Event) :
    R.Match E = true ↔
      (R.Type_ = "" ∨ R.Type_ = E.Type_) ∧
      (R.Reasons = none ∨ ∃ l, R.Reasons = some l ∧ E.Reason ∈ l) ∧
      (R.Resources = none ∨
        ∃ ps, R.Resources = some ps ∧ ∃ P ∈ ps, PatternAccepts P E.InvolvedObject) := by
  obtain ⟨ty, rs, ps⟩ := R
  unfold EventFilter.Match
  by_cases h1 : ty = "" <;> by_cases h2 : ty = E.Type_ <;>
  cases rs <;> cases ps <;>
  simp [h1, h2, reasonsMatched_iff, resourcesMatched_iff]

/-- Claim C1. `R.Match E` is true exactly when the type category, the reasons
category and the resources category all accept `E`, where an unset category
(empty type, nil reasons, nil resources) accepts every event, a set reasons
list accepts `E` when `E.Reason` is one of its entries, and a set resources
list accepts `E` when one of its patterns has every sub-field empty or equal
to the corresponding field of `E.InvolvedObject`. In particular the rule
with every category unset rejects nothing. -/
theorem Match_characterisation (R : EventFilter) (E : Event) :
    (R.Match E = true ↔
      (R.Type_ = "" ∨ R.Type_ = E.Type_) ∧
      (R.Reasons = none ∨ ∃ l, R.Reasons = some l ∧ ∃ r ∈ l, E.Reason = r) ∧
      (R.Resources = none ∨
        ∃ ps, R.Resources = some ps ∧ ∃ P ∈ ps,
          (P.APIVersion = "" ∨ P.APIVersion = E.InvolvedObject.APIVersion) ∧
          (P.Kind = "" ∨ P.Kind = E.InvolvedObject.Kind) ∧
          (P.Name = "" ∨ P.Name = E.InvolvedObject.Name) ∧
          (P.Namespace = "" ∨ P.Namespace = E.InvolvedObject.Namespace))) ∧
    EventFilter.Match { Type_ := "", Reasons := none, Resources := none } E = true := by
  refine ⟨?_, ?_⟩
  · rw [Match_iff]
    simp [PatternAccepts]
  · rw [Match_iff]
    simp

/-! ## Lemmas on the dispatch loops -/

theorem sinkRefsLoop_calls {W : Type} (w : Watcher W) (E : Event)
    (refs : List LocalObjectReference) (env : Env W) :
    (sinkRefsLoop w E refs env).calls =
      env.calls ++ (refs.filterMap (fun r => w.sinks r.Name)).map
        (fun s => Call.Write s.ref E) := by
  induction refs generalizing env with
  | nil => simp [sinkRefsLoop]
  | cons r t ih =>
    unfold sinkRefsLoop
    cases h : w.sinks r.Name with
    | none => simp [ih, Env.logError, List.filterMap_cons, h]
    | some sink =>
      cases h2 : (sink.Write E env.world).2 <;>
      simp [h2, ih, Env.logError, callWrite, List.filterMap_cons, h]

theorem sinkRefsLoop_world {W : Type} (w : Watcher W) (E : Event)
    (refs : List LocalObjectReference) (env : Env W) :
    (sinkRefsLoop w E refs env).world =
      (refs.filterMap (fun r => w.sinks r.Name)).foldl
        (fun wd s => (s.Write E wd).1) env.world := by
  induction refs generalizing env with
  | nil => simp [sinkRefsLoop]
  | cons r t ih =>
    unfold sinkRefsLoop
    cases h : w.sinks r.Name with
    | none => simp [ih, Env.logError, List.filterMap_cons, h]
    | some sink =>
      cases h2 : (sink.Write E env.world).2 <;>
      simp [h2, ih, Env.logError, callWrite, List.filterMap_cons, h]

theorem dispatchTargets_cons_match {W : Type} (w : Watcher W) (E : Event) (a : EventSet)
    (t : List EventSet) (h : a.Spec.Match.Match E = true) :
    dispatchTargets w (a :: t) E =
      a.Spec.SinkRefs.filterMap (fun r => w.sinks r.Name) ++ dispatchTargets w t E := by
  simp [dispatchTargets, List.filter_cons, h]

theorem dispatchTargets_cons_skip {W : Type} (w : Watcher W) (E : Event) (a : EventSet)
    (t : List EventSet) (h : ¬ a.Spec.Match.Match E = true) :
    dispatchTargets w (a :: t) E = dispatchTargets w t E := by
  simp [dispatchTargets, List.filter_cons, h]

theorem eventSetsLoop_calls {W : Type} (w : Watcher W) (E : Event)
    (sets : List EventSet) (env : Env W) :
    (eventSetsLoop w E sets env).calls =
      env.calls ++ (dispatchTargets w sets E).map (fun s => Call.Write s.ref E) := by
  induction sets generalizing env with
  | nil => simp [eventSetsLoop, dispatchTargets]
  | cons a t ih =>
    unfold eventSetsLoop
    by_cases h : a.Spec.Match.Match E = true
    · rw [if_pos h, ih, sinkRefsLoop_calls, dispatchTargets_cons_match w E a t h]
      simp
    · rw [if_neg h, ih, dispatchTargets_cons_skip w E a t h]

theorem eventSetsLoop_world {W : Type} (w : Watcher W) (E : Event)
    (sets : List EventSet) (env : Env W) :
    (eventSetsLoop w E sets env).world =
      (dispatchTargets w sets E).foldl (fun wd s => (s.Write E wd).1) env.world := by
  induction sets generalizing env with
  | nil => simp [eventSetsLoop, dispatchTargets]
  | cons a t ih =>
    unfold eventSetsLoop
    by_cases h : a.Spec.Match.Match E = true
    · rw [if_pos h, ih, sinkRefsLoop_world, dispatchTargets_cons_match w E a t h]
      simp
    · rw [if_neg h, ih, dispatchTargets_cons_skip w E a t h]

/-- Claim C2. For every event, list of rule-sets and registry, the handler
makes exactly the sink calls `Write E` on the dispatch targets, in order
(rule-sets in list order that match, then their sink names in order, names
absent from the registry skipped), whatever the sinks return, and the
outside world is changed by exactly those writes. -/
theorem handler_writes {W : Type} (w : Watcher W) (sets : List EventSet) (E : Event)
    (env : Env W) :
    (w.handler (Except.ok sets) (Obj.event E) env).calls =
      env.calls ++ (dispatchTargets w sets E).map (fun s => Call.Write s.ref E) ∧
    (w.handler (Except.ok sets) (Obj.event E) env).world =
      (dispatchTargets w sets E).foldl (fun wd s => (s.Write E wd).1) env.world := by
  simp [Watcher.handler, eventSetsLoop_calls, eventSetsLoop_world]

/-! ## Lemmas on the bulk-index worker -/

/-- The worker invariant: the capacity is the configured one and the buffer
is strictly shorter. -/
theorem step_invariant (grow : Nat → Nat) (C : Nat) (es : ElasticSink) (c : Select)
    (hcap : es.eventBatch.cap = C) (hlen : es.eventBatch.elems.length < C) :
    (es.step grow c).es.eventBatch.cap = C ∧
    (es.step grow c).es.eventBatch.elems.length < C ∧
    ∀ b ∈ flushes (es.step grow c).actions, b ≠ [] := by
  obtain ⟨idx, ⟨buf, cap⟩, ex⟩ := es
  simp only at hcap hlen
  subst hcap
  cases c with
  | recv e =>
    by_cases h : buf.length + 1 = cap
    · simp [ElasticSink.step, Slice.append, Slice.reset, hlen, h, flushes]
      omega
    · simp [ElasticSink.step, Slice.append, Slice.reset, hlen, h, flushes]
      omega
  | tick =>
    by_cases h : 0 < buf.length
    · have hne : buf ≠ [] := by
        intro e; simp [e] at h
      simp [ElasticSink.step, Slice.reset, h, flushes, hne]
      omega
    · simp [ElasticSink.step, Slice.reset, h, flushes, hlen]
  | done =>
    by_cases h : 0 < buf.length
    · have hne : buf ≠ [] := by
        intro e; simp [e] at h
      simp [ElasticSink.step, h, flushes, hne, hlen]
    · simp [ElasticSink.step, h, flushes, hlen]

theorem flushes_append (a b : List Action) : flushes (a ++ b) = flushes a ++ flushes b := by
  induction a with
  | nil => rfl
  | cons x t ih => cases x <;> simp [flushes, ih]

theorem worker_invariant (grow : Nat → Nat) (C : Nat) (schedule : List Select)
    (es : ElasticSink)
    (hcap : es.eventBatch.cap = C) (hlen : es.eventBatch.elems.length < C) :
    (es.workerLoop grow schedule).es.eventBatch.cap = C ∧
    (es.workerLoop grow schedule).es.eventBatch.elems.length < C ∧
    ∀ b ∈ flushes (es.workerLoop grow schedule).actions, b ≠ [] := by
  induction schedule generalizing es with
  | nil => simp [ElasticSink.workerLoop, hcap, hlen, flushes]
  | cons c t ih =>
    have hs := step_invariant grow C es c hcap hlen
    unfold ElasticSink.workerLoop
    by_cases hr : (es.step grow c).returned = true
    · simp only [hr, if_true]
      exact hs
    · have ht := ih (es.step grow c).es hs.1 hs.2.1
      simp only [hr]
      refine ⟨ht.1, ht.2.1, ?_⟩
      intro b hb
      simp only [Bool.false_eq_true, if_false, flushes_append, List.mem_append] at hb
      rcases hb with hb | hb
      · exact hs.2.2 b hb
      · exact ht.2.2 b hb

theorem step_recv_spec (grow : Nat → Nat) (es : ElasticSink) (e : Event)
    (hlen : es.eventBatch.elems.length < es.eventBatch.cap) :
    (es.step grow (Select.recv e)).actions =
      (if es.eventBatch.elems.length + 1 = es.eventBatch.cap then
        [Action.writeBatch (es.eventBatch.elems ++ [e]), Action.timerReset] else []) ∧
    (es.step grow (Select.recv e)).es.eventBatch.elems =
      (if es.eventBatch.elems.length + 1 = es.eventBatch.cap then []
        else es.eventBatch.elems ++ [e]) ∧
    (es.step grow (Select.recv e)).returned = false := by
  obtain ⟨idx, ⟨buf, cap⟩, ex⟩ := es
  simp only at hlen
  by_cases h : buf.length + 1 = cap <;>
  simp [ElasticSink.step, Slice.append, Slice.reset, hlen, h]

theorem step_tick_spec (grow : Nat → Nat) (es : ElasticSink) :
    (es.step grow Select.tick).actions =
      (if es.eventBatch.elems ≠ [] then [Action.writeBatch es.eventBatch.elems] else []) ∧
    (es.step grow Select.tick).es.eventBatch.elems = [] ∧
    (es.step grow Select.tick).returned = false := by
  obtain ⟨idx, ⟨buf, cap⟩, ex⟩ := es
  cases buf with
  | nil => simp [ElasticSink.step]
  | cons a t => simp [ElasticSink.step, Slice.reset]

theorem New_ok (index : String) (secs : Int) (C : Nat) (es0 : ElasticSink)
    (hNew : ElasticSink.New none index (C : Int) secs = Outcome.returned (Except.ok es0)) :
    es0.eventBatch.cap = C ∧ es0.eventBatch.elems = [] := by
  have hneg : ¬ ((C : Int) < 0) := by omega
  simp only [ElasticSink.New, hneg, if_false, Outcome.returned.injEq, Except.ok.injEq] at hNew
  subst hNew
  simp [Slice.make]

/-- Claim C3. A bulk-index sink built by `New` with batch size `C ≥ 1` and run
over any schedule of select cases is in a state where the capacity is `C` and
the buffer is strictly shorter than `C`; no batch flushed so far is empty.
From that state, an event-received round flushes exactly when the buffer
after appending has `C` events, it then sends those `C` events, resets the
timer and empties the buffer, and otherwise only appends; a timer round sends
the buffer and empties it when it is non-empty and sends nothing when it is
empty. -/
theorem worker_flush_discipline (grow : Nat → Nat) (index : String) (secs : Int) (C : Nat)
    (es0 : ElasticSink) (schedule : List Select) (e : Event) (hC : 1 ≤ C)
    (hNew : ElasticSink.New none index (C : Int) secs = Outcome.returned (Except.ok es0)) :
    (es0.workerLoop grow schedule).es.eventBatch.cap = C ∧
    (es0.workerLoop grow schedule).es.eventBatch.elems.length < C ∧
    (∀ b ∈ flushes (es0.workerLoop grow schedule).actions, b ≠ []) ∧
    ((es0.workerLoop grow schedule).es.step grow (Select.recv e)).actions =
      (if (es0.workerLoop grow schedule).es.eventBatch.elems.length + 1 = C then
        [Action.writeBatch ((es0.workerLoop grow schedule).es.eventBatch.elems ++ [e]),
          Action.timerReset]
      else []) ∧
    ((es0.workerLoop grow schedule).es.step grow (Select.recv e)).es.eventBatch.elems =
      (if (es0.workerLoop grow schedule).es.eventBatch.elems.length + 1 = C then []
      else (es0.workerLoop grow schedule).es.eventBatch.elems ++ [e]) ∧
    ((es0.workerLoop grow schedule).es.step grow Select.tick).actions =
      (if (es0.workerLoop grow schedule).es.eventBatch.elems ≠ [] then
        [Action.writeBatch (es0.workerLoop grow schedule).es.eventBatch.elems]
      else []) ∧
    ((es0.workerLoop grow schedule).es.step grow Select.tick).es.eventBatch.elems = [] := by
  have h0 := New_ok index secs C es0 hNew
  have h0len : es0.eventBatch.elems.length < C := by
    rw [h0.2]; simpa using hC
  have hinv := worker_invariant grow C schedule es0 h0.1 h0len
  have hrecv := step_recv_spec grow (es0.workerLoop grow schedule).es e
    (by rw [hinv.1]; exact hinv.2.1)
  have htick := step_tick_spec grow (es0.workerLoop grow schedule).es
  rw [hinv.1] at hrecv
  exact ⟨hinv.1, hinv.2.1, hinv.2.2, hrecv.1, hrecv.2.1, htick.1, htick.2.1⟩

/-- Witness for C3: capacity 2, schedule receive, timer, receive. -/
theorem worker_flush_discipline_witness :
    (1 ≤ 2 ∧
     ElasticSink.New none "events" ((2 : Nat) : Int) 10 =
       Outcome.returned (Except.ok ⟨"events", Slice.make 2, 10000000000⟩)) ∧
    ((ElasticSink.workerLoop (fun n => 2 * n + 1) ⟨"events", Slice.make 2, 10000000000⟩
        [Select.recv { UID := "a" }, Select.tick, Select.recv { UID := "b" }]).es.eventBatch.cap
      = 2) :=
  ⟨⟨by decide, by simp [ElasticSink.New, wrapInt64]⟩,
    (worker_flush_discipline (fun n => 2 * n + 1) "events" 10 2
      ⟨"events", Slice.make 2, 10000000000⟩
      [Select.recv { UID := "a" }, Select.tick, Select.recv { UID := "b" }]
      { UID := "c" } (by decide) (by simp [ElasticSink.New, wrapInt64])).1⟩

/-! ### Shutdown -/

theorem received_append (a b : List Select) : received (a ++ b) = received a ++ received b := by
  induction a with
  | nil => rfl
  | cons x t ih => cases x <;> simp [received, ih]

theorem step_not_returned (grow : Nat → Nat) (es : ElasticSink) (c : Select)
    (hc : c ≠ Select.done) : (es.step grow c).returned = false := by
  cases c with
  | recv e =>
    simp only [ElasticSink.step]
    split <;> rfl
  | tick =>
    simp only [ElasticSink.step]
    split <;> rfl
  | done => exact absurd rfl hc

/-- One round keeps the accounting: batches flushed, then the buffer, are
the old buffer followed by the event received in this round. -/
theorem step_accounting (grow : Nat → Nat) (es : ElasticSink) (c : Select)
    (hc : c ≠ Select.done) :
    (flushes (es.step grow c).actions).flatten ++ (es.step grow c).es.eventBatch.elems =
      es.eventBatch.elems ++ received [c] := by
  obtain ⟨idx, ⟨buf, cap⟩, ex⟩ := es
  cases c with
  | recv e =>
    simp only [ElasticSink.step]
    split <;> simp [flushes, received, Slice.reset, Slice.append] <;> split <;> rfl
  | tick =>
    simp only [ElasticSink.step]
    split <;> simp [flushes, received, Slice.reset]
  | done => exact absurd rfl hc

theorem worker_accounting (grow : Nat → Nat) (schedule : List Select) (es : ElasticSink)
    (hnd : Select.done ∉ schedule) :
    (es.workerLoop grow schedule).returned = false ∧
    (flushes (es.workerLoop grow schedule).actions).flatten ++
        (es.workerLoop grow schedule).es.eventBatch.elems =
      es.eventBatch.elems ++ received schedule := by
  induction schedule generalizing es with
  | nil => simp [ElasticSink.workerLoop, flushes, received]
  | cons c t ih =>
    have hc : c ≠ Select.done := fun h => hnd (by simp [h])
    have ht : Select.done ∉ t := fun h => hnd (by simp [h])
    have hr := step_not_returned grow es c hc
    have hs := step_accounting grow es c hc
    have hi := ih (es.step grow c).es ht
    unfold ElasticSink.workerLoop
    simp only [hr, Bool.false_eq_true, if_false, flushes_append, List.flatten_append,
      List.append_assoc]
    refine ⟨hi.1, ?_⟩
    rw [hi.2, ← List.append_assoc, hs]
    have : c :: t = [c] ++ t := rfl
    rw [this, received_append, List.append_assoc]

theorem worker_append (grow : Nat → Nat) (s1 s2 : List Select) (es : ElasticSink)
    (h : (es.workerLoop grow s1).returned = false) :
    es.workerLoop grow (s1 ++ s2) =
      ⟨((es.workerLoop grow s1).es.workerLoop grow s2).es,
        (es.workerLoop grow s1).actions ++ ((es.workerLoop grow s1).es.workerLoop grow s2).actions,
        ((es.workerLoop grow s1).es.workerLoop grow s2).returned⟩ := by
  induction s1 generalizing es with
  | nil => simp [ElasticSink.workerLoop]
  | cons c t ih =>
    unfold ElasticSink.workerLoop at h
    by_cases hr : (es.step grow c).returned = true
    · simp [hr] at h
    · simp only [hr, Bool.false_eq_true, if_false] at h
      have := ih (es.step grow c).es h
      simp only [List.cons_append]
      rw [ElasticSink.workerLoop]
      simp only [hr, Bool.false_eq_true, if_false, this]
      rw [ElasticSink.workerLoop]
      simp [hr]

theorem New_empty (index : String) (secs batchSize : Int) (es0 : ElasticSink)
    (hNew : ElasticSink.New none index batchSize secs = Outcome.returned (Except.ok es0)) :
    es0.eventBatch.elems = [] := by
  unfold ElasticSink.New at hNew
  by_cases hneg : batchSize < 0
  · simp [hneg] at hNew
  · simp only [hneg, if_false, Outcome.returned.injEq, Except.ok.injEq] at hNew
    subst hNew
    simp [Slice.make]

theorem worker_done (grow : Nat → Nat) (es : ElasticSink) (rest : List Select) :
    es.workerLoop grow (Select.done :: rest) =
      ⟨es, (if es.eventBatch.elems ≠ [] then [Action.writeBatch es.eventBatch.elems] else []),
        true⟩ := by
  obtain ⟨idx, ⟨buf, cap⟩, ex⟩ := es
  cases buf with
  | nil => simp [ElasticSink.workerLoop, ElasticSink.step]
  | cons a t => simp [ElasticSink.workerLoop, ElasticSink.step]

/-- Control flow of the worker at shutdown. Let a bulk-index sink built by
`New` run over a schedule of receive and timer rounds and then take the
shutdown case. The worker then returns (the rounds after it are never
taken), and what it calls at shutdown is exactly: one `writeBatch` of the
whole buffer when the buffer is non-empty, nothing when it is empty. The
batches passed to `writeBatch` before, followed by the buffer, are the
events the worker has received from the channel, in order. -/
theorem worker_shutdown (grow : Nat → Nat) (index : String) (secs batchSize : Int)
    (es0 : ElasticSink) (schedule rest : List Select)
    (hNew : ElasticSink.New none index batchSize secs = Outcome.returned (Except.ok es0))
    (hnd : Select.done ∉ schedule) :
    (es0.workerLoop grow (schedule ++ Select.done :: rest)).returned = true ∧
    (es0.workerLoop grow (schedule ++ Select.done :: rest)).actions =
      (es0.workerLoop grow schedule).actions ++
        (if (es0.workerLoop grow schedule).es.eventBatch.elems ≠ [] then
          [Action.writeBatch (es0.workerLoop grow schedule).es.eventBatch.elems]
        else []) ∧
    (flushes (es0.workerLoop grow schedule).actions).flatten ++
        (es0.workerLoop grow schedule).es.eventBatch.elems = received schedule ∧
    (flushes (es0.workerLoop grow (schedule ++ Select.done :: rest)).actions).flatten =
      received schedule := by
  have hacc := worker_accounting grow schedule es0 hnd
  have happ := worker_append grow schedule (Select.done :: rest) es0 hacc.1
  have hbuf : (flushes (es0.workerLoop grow schedule).actions).flatten ++
      (es0.workerLoop grow schedule).es.eventBatch.elems = received schedule := by
    rw [hacc.2, New_empty index secs batchSize es0 hNew]
    rfl
  rw [happ, worker_done]
  refine ⟨rfl, rfl, hbuf, ?_⟩
  simp only [flushes_append, List.flatten_append]
  rw [← hbuf]
  congr 1
  by_cases h : (es0.workerLoop grow schedule).es.eventBatch.elems = []
  · simp [h, flushes]
  · simp [h, flushes]

/-- With a positive expiry interval the worker is its select loop. -/
theorem worker_eq_workerLoop (grow : Nat → Nat) (es : ElasticSink) (schedule : List Select)
    (h : 0 < es.batchExpiry) :
    es.worker grow schedule = Outcome.returned (es.workerLoop grow schedule) := by
  have h2 : ¬ es.batchExpiry ≤ 0 := by omega
  simp [ElasticSink.worker, h2]

/-- The shutdown control flow at capacity 3: two events received, then
shutdown. -/
theorem worker_shutdown_witness :
    (ElasticSink.workerLoop (fun n => 2 * n + 1) ⟨"events", Slice.make 3, 10000000000⟩
      ([Select.recv { UID := "a" }, Select.tick, Select.recv { UID := "b" }] ++
        Select.done :: [Select.recv { UID := "c" }])).returned = true :=
  (worker_shutdown (fun n => 2 * n + 1) "events" 10 3 ⟨"events", Slice.make 3, 10000000000⟩
    [Select.recv { UID := "a" }, Select.tick, Select.recv { UID := "b" }]
    [Select.recv { UID := "c" }] (by simp [ElasticSink.New, Slice.make, wrapInt64]) (by simp)).1

/-! ## Lemmas on the bulk body -/

theorem bulkRecords_cons (J : Json) (enc : Event → String) (I : String) (e : Event)
    (rest : List Event) :
    bulkRecords J enc I (e :: rest) = framingRecord J I e :: enc e :: bulkRecords J enc I rest := by
  simp [bulkRecords]

theorem createBodyLoop_ok (J : Json) (enc : Event → String) (I : String) (events : List Event)
    (buf : String) (logs : List LogEntry)
    (hok : ∀ e ∈ events, J.event e = Except.ok (enc e)) :
    createBodyLoop J I events buf logs =
      (buf ++ newlineTerminated (bulkRecords J enc I events), logs) := by
  induction events generalizing buf with
  | nil => simp [createBodyLoop, bulkRecords, newlineTerminated]
  | cons e rest ih =>
    have he : J.event e = Except.ok (enc e) := hok e (by simp)
    have hrest : ∀ x ∈ rest, J.event x = Except.ok (enc x) := fun x hx => hok x (by simp [hx])
    rw [createBodyLoop]
    simp only [Json.indexTemplate, Encode, he]
    rw [ih _ hrest, bulkRecords_cons]
    simp [newlineTerminated, framingRecord, String.append_assoc]

theorem bulkRecords_length (J : Json) (enc : Event → String) (I : String) (events : List Event) :
    (bulkRecords J enc I events).length = 2 * events.length := by
  induction events with
  | nil => rfl
  | cons e rest ih => rw [bulkRecords_cons]; simp [ih]; omega

theorem bulkRecords_get (J : Json) (enc : Event → String) (I : String) (events : List Event)
    (i : Nat) :
    (bulkRecords J enc I events)[2 * i]? = (events[i]?).map (framingRecord J I) ∧
    (bulkRecords J enc I events)[2 * i + 1]? = (events[i]?).map enc := by
  induction events generalizing i with
  | nil => simp [bulkRecords]
  | cons e rest ih =>
    rw [bulkRecords_cons]
    cases i with
    | zero => simp
    | succ k =>
      have h1 : 2 * (k + 1) = (2 * k + 1) + 1 := by omega
      have h2 : 2 * (k + 1) + 1 = (2 * k + 1 + 1) + 1 := by omega
      rw [h2, h1]
      simp only [List.getElem?_cons_succ]
      exact ih k

/-- Claim C5. When every event of the batch serializes without error (to
`enc e`), `createBody` returns no error and a body that is the sequence of
`2n` newline-terminated records of the batch: record `2i` (from zero) is the
framing record with the index name and the UID of event `i`, record `2i+1`
is the serialization of event `i`. The empty batch gives the empty body, and
a non-empty body begins with the framing object, not with an array. -/
theorem createBody_format (J : Json) (enc : Event → String) (es : ElasticSink)
    (events : List Event) (hok : ∀ e ∈ events, J.event e = Except.ok (enc e)) :
    (es.createBody J events).1 = newlineTerminated (bulkRecords J enc es.indexName events) ∧
    (es.createBody J events).2.1 = none ∧
    (bulkRecords J enc es.indexName events).length = 2 * events.length ∧
    (∀ i, (bulkRecords J enc es.indexName events)[2 * i]? =
        (events[i]?).map (framingRecord J es.indexName) ∧
      (bulkRecords J enc es.indexName events)[2 * i + 1]? = (events[i]?).map enc) ∧
    (es.createBody J []).1 = "" ∧
    (∀ e rest, events = e :: rest →
      ∃ tail, (es.createBody J events).1 = "\x7b\"index\":\x7b\"_index\":" ++ tail) := by
  have hbody : (es.createBody J events).1 =
      newlineTerminated (bulkRecords J enc es.indexName events) := by
    simp [ElasticSink.createBody, createBodyLoop_ok J enc es.indexName events "" [] hok]
  refine ⟨hbody, rfl, bulkRecords_length J enc _ events, bulkRecords_get J enc _ events, ?_, ?_⟩
  · simp [ElasticSink.createBody, createBodyLoop]
  · intro e rest he
    rw [hbody, he, bulkRecords_cons]
    refine ⟨J.string es.indexName ++ (",\"_id\":" ++ (J.string e.UID ++ ("\x7d\x7d" ++
      ("\n" ++ (enc e ++ ("\n" ++ newlineTerminated (bulkRecords J enc es.indexName rest))))))),
      ?_⟩
    simp only [newlineTerminated, framingRecord, String.append_assoc]

/-- Witness for C5: a batch of one event. -/
theorem createBody_format_witness :
    (∀ e ∈ [({ UID := "u1" } : Event)],
      plainJson.event e = Except.ok ((fun x => "\"" ++ x.UID ++ "\"") e)) ∧
    (ElasticSink.createBody plainJson ⟨"events", Slice.make 2, 0⟩ [{ UID := "u1" }]).1 =
      newlineTerminated (bulkRecords plainJson (fun x => "\"" ++ x.UID ++ "\"") "events"
        [{ UID := "u1" }]) :=
  ⟨fun _ _ => rfl,
    (createBody_format plainJson (fun x => "\"" ++ x.UID ++ "\"") ⟨"events", Slice.make 2, 0⟩
      [{ UID := "u1" }] (fun _ _ => rfl)).1⟩

/-! ## The registry -/

/-- `RegisterSink` makes at most one call on a sink, a `Start`; it never
calls `Stop`. -/
theorem RegisterSink_calls {W : Type} (K : Constructors W) (w : Watcher W) (cr : SinkCR)
    (secretConf : String → Option String) (env : Env W) :
    (w.RegisterSink K cr secretConf env).env.calls = env.calls ∨
    ∃ sink : Sink W, (w.RegisterSink K cr secretConf env).env.calls =
      env.calls ++ [Call.Start sink.ref] := by
  unfold Watcher.RegisterSink
  rcases hb : buildSink K cr secretConf env.world with ⟨world1, err | none | sink⟩
  · simp
  · simp
  · right
    refine ⟨sink, ?_⟩
    simp only
    rcases hs : callStart sink { env with world := world1 } with ⟨env1, none | err⟩ <;>
    · simp only
      have := congrArg (fun p => p.1.calls) hs
      simpa [callStart] using this.symm

/-- Claim C6, the code at the failing input. With sink object 1 registered
under the name `s`, registering a file sink configuration named `s` whose
construction and `Start` succeed (sink object 2) returns nil, makes the
single call `Start` on object 2, and leaves object 2 under `s`: no `Stop` is
ever called on the old sink object 1. -/
theorem RegisterSink_replaces_without_stop :
    ((Watcher.mk (mapSet (fun _ => none) "s" (quietSink 1))).RegisterSink (quietConstructors 2)
        { Name := "s", Spec := { File := some ⟨"/var/log/events"⟩ } } (fun _ => none)
        ⟨(), [], []⟩).out = Outcome.returned none ∧
    ((Watcher.mk (mapSet (fun _ => none) "s" (quietSink 1))).RegisterSink (quietConstructors 2)
        { Name := "s", Spec := { File := some ⟨"/var/log/events"⟩ } } (fun _ => none)
        ⟨(), [], []⟩).env.calls = [Call.Start 2] ∧
    Call.Stop 1 ∉
      ((Watcher.mk (mapSet (fun _ => none) "s" (quietSink 1))).RegisterSink (quietConstructors 2)
        { Name := "s", Spec := { File := some ⟨"/var/log/events"⟩ } } (fun _ => none)
        ⟨(), [], []⟩).env.calls ∧
    (Watcher.mk (mapSet (fun _ => none) "s" (quietSink 1))).refOf "s" = some 1 ∧
    ((Watcher.mk (mapSet (fun _ => none) "s" (quietSink 1))).RegisterSink (quietConstructors 2)
        { Name := "s", Spec := { File := some ⟨"/var/log/events"⟩ } } (fun _ => none)
        ⟨(), [], []⟩).watcher.refOf "s" = some 2 := by
  simp [Watcher.RegisterSink, buildSink, quietConstructors, quietSink, callStart, mapSet,
    Watcher.refOf]

/-- Claim C7. When `n` is registered with sink `S`, `RemoveSink n` leaves a
registry without `n` and otherwise equal to the old one, and makes exactly
one call, `Stop` on `S`, whatever `Stop` returns; when `n` is not
registered, the registry, the calls and the world are unchanged. -/
theorem RemoveSink_spec {W : Type} (w : Watcher W) (n : String) (env : Env W) :
    match w.sinks n with
    | some S =>
      (w.RemoveSink n env).1.sinks n = none ∧
      (∀ k, (w.RemoveSink n env).1.sinks k = if k = n then none else w.sinks k) ∧
      (w.RemoveSink n env).2.calls = env.calls ++ [Call.Stop S.ref] ∧
      (w.RemoveSink n env).2.world = (S.Stop env.world).1
    | none =>
      (w.RemoveSink n env).1.sinks = w.sinks ∧
      (w.RemoveSink n env).2.calls = env.calls ∧
      (w.RemoveSink n env).2.world = env.world ∧
      (w.RemoveSink n env).2.logs = env.logs := by
  unfold Watcher.RemoveSink
  cases h : w.sinks n with
  | none => simp
  | some S =>
    simp only
    rcases hs : callStop S env with ⟨env1, none | err⟩
    · have h1 := congrArg (fun p => p.1.calls) hs
      have h2 := congrArg (fun p => p.1.world) hs
      simp [callStop] at h1 h2
      simp [mapDelete, ← h1, ← h2]
    · have h1 := congrArg (fun p => p.1.calls) hs
      have h2 := congrArg (fun p => p.1.world) hs
      simp [callStop] at h1 h2
      simp [mapDelete, Env.logError, ← h1, ← h2]

/-- Claim C8, the code at the failing input. For a configuration with none
of the four variants set, `RegisterSink` does not return: it calls `Start`
on the nil sink and crashes with a nil-pointer dereference, with the
registry and the calls made so far unchanged. -/
theorem RegisterSink_no_variant_crashes {W : Type} (K : Constructors W) (w : Watcher W)
    (name : String) (secretRef : Option SecretReference) (secretConf : String → Option String)
    (env : Env W) :
    (w.RegisterSink K
        { Name := name,
          Spec := { File := none, SQLite := none, Webhook := none, Elastic := none,
                    SecretRef := secretRef } } secretConf env).out =
      Outcome.crashed "invalid memory address or nil pointer dereference" ∧
    (w.RegisterSink K
        { Name := name,
          Spec := { File := none, SQLite := none, Webhook := none, Elastic := none,
                    SecretRef := secretRef } } secretConf env).env.calls = env.calls ∧
    (w.RegisterSink K
        { Name := name,
          Spec := { File := none, SQLite := none, Webhook := none, Elastic := none,
                    SecretRef := secretRef } } secretConf env).watcher.sinks = w.sinks := by
  simp [Watcher.RegisterSink, buildSink]

/-- Claim C9. The rule whose only set category is reasons
`["Failed", "BackOff"]` matches an event exactly when its reason is
`Failed` or `BackOff`; a rule with only a reason list `L` set matches an
event exactly when its reason is a member of `L`. -/
theorem Match_reasons_only (E : Event) (L : List String) :
    (EventFilter.Match { Type_ := "", Reasons := some ["Failed", "BackOff"], Resources := none } E
        = true ↔ (E.Reason = "Failed" ∨ E.Reason = "BackOff")) ∧
    (EventFilter.Match { Type_ := "", Reasons := some L, Resources := none } E = true ↔
      E.Reason ∈ L) := by
  constructor
  · rw [Match_iff]; simp
  · rw [Match_iff]; simp

/-- Claim C10. The rule whose only set category is the single subject pattern
with kind `Pod` (other sub-fields empty) matches an event exactly when the
kind of its involved object is `Pod`, whatever its name, namespace and api
version are. -/
theorem Match_kind_Pod (E : Event) :
    EventFilter.Match
        { Type_ := "", Reasons := none,
          Resources := some [{ APIVersion := "", Kind := "Pod", Name := "", Namespace := "" }] } E
      = true ↔ E.InvolvedObject.Kind = "Pod" := by
  rw [Match_iff]
  simp [PatternAccepts]
  exact eq_comm

/-! ## Dispatching a sequence of events to one sink -/

theorem dispatchTargets_single {W : Type} (w : Watcher W) (n setName : String) (S : Sink W)
    (R : EventFilter) (E : Event) (h : w.sinks n = some S) :
    dispatchTargets w [⟨setName, ⟨R, [⟨n⟩]⟩⟩] E = if R.Match E = true then [S] else [] := by
  by_cases hm : R.Match E = true
  · simp [dispatchTargets, List.filter_cons, hm, h]
  · simp [dispatchTargets, List.filter_cons, hm]

theorem dispatchAll_single {W : Type} (w : Watcher W) (n setName : String) (S : Sink W)
    (R : EventFilter) (events : List Event) (env : Env W) (h : w.sinks n = some S) :
    (w.dispatchAll [⟨setName, ⟨R, [⟨n⟩]⟩⟩] events env).calls =
      env.calls ++ (events.filter (fun E => R.Match E)).map (fun E => Call.Write S.ref E) ∧
    (w.dispatchAll [⟨setName, ⟨R, [⟨n⟩]⟩⟩] events env).world =
      (events.filter (fun E => R.Match E)).foldl (fun wd E => (S.Write E wd).1) env.world := by
  induction events generalizing env with
  | nil => simp [Watcher.dispatchAll]
  | cons E rest ih =>
    have hc := eventSetsLoop_calls w E [⟨setName, ⟨R, [⟨n⟩]⟩⟩] env
    have hw := eventSetsLoop_world w E [⟨setName, ⟨R, [⟨n⟩]⟩⟩] env
    rw [dispatchTargets_single w n setName S R E h] at hc hw
    have ih2 := ih (w.handler (Except.ok [⟨setName, ⟨R, [⟨n⟩]⟩⟩]) (Obj.event E) env)
    simp only [Watcher.handler] at ih2
    simp only [Watcher.dispatchAll, Watcher.handler]
    rw [ih2.1, ih2.2, hc, hw]
    by_cases hm : R.Match E = true
    · simp [List.filter_cons, hm]
    · simp [List.filter_cons, hm]

theorem FileRun_step_fifo (s : FileRun) (op : FileOp) (hopen : s.eventChan.closed = false)
    (hinv : s.encoded ++ s.eventChan.queue = s.written) :
    (s.step op).eventChan.closed = false ∧
    (s.step op).encoded ++ (s.step op).eventChan.queue = (s.step op).written := by
  obtain ⟨⟨queue, closed, cap⟩, encoded, written, returned⟩ := s
  simp only at hopen hinv
  subst hopen
  cases op with
  | Write event =>
    by_cases hroom : queue.length < cap
    · simp [FileRun.step, Chan.send, hroom, ← hinv]
    · simp [FileRun.step, Chan.send, hroom, hinv]
  | recv =>
    cases returned with
    | true => simp [FileRun.step, hinv]
    | false =>
      cases queue with
      | nil => simp [FileRun.step, Chan.recv]; simpa using hinv
      | cons e rest => simp [FileRun.step, Chan.recv, ← hinv]
  | done =>
    cases returned <;> simp [FileRun.step, hinv]

theorem FileRun_run_fifo (ops : List FileOp) (s : FileRun) (hopen : s.eventChan.closed = false)
    (hinv : s.encoded ++ s.eventChan.queue = s.written) :
    (s.run ops).encoded ++ (s.run ops).eventChan.queue = (s.run ops).written := by
  induction ops generalizing s with
  | nil => simpa [FileRun.run] using hinv
  | cons op rest ih =>
    have hs := FileRun_step_fifo s op hopen hinv
    simpa [FileRun.run] using ih (s.step op) hs.1 hs.2

/-- Claim C11. With sink `S` registered under `n` and a single rule-set that
names `n` once, dispatching a sequence of events one after another makes
exactly the calls `Write` on `S` for the events the rule matches, in the
order dispatched, and changes the world by exactly those writes. In every
run of a file sink, the events its worker has encoded, followed by the
events still queued, are the events written to it, in order. -/
theorem dispatch_sequence {W : Type} (w : Watcher W) (n setName : String) (S : Sink W)
    (R : EventFilter) (events : List Event) (env : Env W) (ops : List FileOp)
    (h : w.sinks n = some S) :
    (w.dispatchAll [⟨setName, ⟨R, [⟨n⟩]⟩⟩] events env).calls =
      env.calls ++ (events.filter (fun E => R.Match E)).map (fun E => Call.Write S.ref E) ∧
    (w.dispatchAll [⟨setName, ⟨R, [⟨n⟩]⟩⟩] events env).world =
      (events.filter (fun E => R.Match E)).foldl (fun wd E => (S.Write E wd).1) env.world ∧
    (FileRun.start.run ops).encoded ++ (FileRun.start.run ops).eventChan.queue =
      (FileRun.start.run ops).written :=
  ⟨(dispatchAll_single w n setName S R events env h).1,
    (dispatchAll_single w n setName S R events env h).2,
    FileRun_run_fifo ops FileRun.start rfl rfl⟩

/-- Witness for C11: the rule with reasons `["Warning"]` and events with
reasons Warning, Normal, Warning: the sink is written the first and the
third event, in that order. -/
theorem dispatch_sequence_witness :
    (Watcher.mk (mapSet (fun _ => none) "file" (quietSink 1))).sinks "file" = some (quietSink 1) ∧
    ((Watcher.mk (mapSet (fun _ => none) "file" (quietSink 1))).dispatchAll
        [⟨"warnings", ⟨{ Reasons := some ["Warning"] }, [⟨"file"⟩]⟩⟩]
        [{ UID := "1", Reason := "Warning" }, { UID := "2", Reason := "Normal" },
          { UID := "3", Reason := "Warning" }] ⟨(), [], []⟩).calls =
      [Call.Write 1 { UID := "1", Reason := "Warning" },
        Call.Write 1 { UID := "3", Reason := "Warning" }] := by
  refine ⟨by simp [mapSet], ?_⟩
  have h := (dispatch_sequence (Watcher.mk (mapSet (fun _ => none) "file" (quietSink 1)))
    "file" "warnings" (quietSink 1) { Reasons := some ["Warning"] }
    [{ UID := "1", Reason := "Warning" }, { UID := "2", Reason := "Normal" },
      { UID := "3", Reason := "Warning" }] ⟨(), [], []⟩ [] (by simp [mapSet])).1
  rw [h]
  simp [List.filter_cons, EventFilter.Match, reasonsMatched, quietSink]

/-- Claim C13. A list-valued category that is present but empty is set: a
rule whose reasons list is the empty non-nil list matches no event, and a
rule whose resources list is the empty non-nil list matches no event,
whatever the other categories are; a nil list puts no condition on the
event (the rule then matches exactly when the other categories accept). -/
theorem Match_empty_list_is_set (ty : String) (rs : Option (List String))
    (ps : Option (List EventResource)) (E : Event) :
    EventFilter.Match { Type_ := ty, Reasons := some [], Resources := ps } E = false ∧
    EventFilter.Match { Type_ := ty, Reasons := rs, Resources := some [] } E = false ∧
    (EventFilter.Match { Type_ := ty, Reasons := none, Resources := ps } E = true ↔
      (ty = "" ∨ ty = E.Type_) ∧
      (ps = none ∨ ∃ l, ps = some l ∧ ∃ P ∈ l, PatternAccepts P E.InvolvedObject)) ∧
    (EventFilter.Match { Type_ := ty, Reasons := rs, Resources := none } E = true ↔
      (ty = "" ∨ ty = E.Type_) ∧ (rs = none ∨ ∃ l, rs = some l ∧ E.Reason ∈ l)) := by
  refine ⟨?_, ?_, ?_, ?_⟩
  · rw [← Bool.not_eq_true, Match_iff]; simp
  · rw [← Bool.not_eq_true, Match_iff]; simp
  · rw [Match_iff]; simp
  · rw [Match_iff]; simp

/-! ## Overlapping binding lists -/

theorem dispatchNames_cons_match (E : Event) (a : EventSet) (t : List EventSet)
    (h : a.Spec.Match.Match E = true) :
    dispatchNames (a :: t) E = a.Spec.SinkRefs.map (fun r => r.Name) ++ dispatchNames t E := by
  simp [dispatchNames, List.filter_cons, h]

theorem dispatchNames_cons_skip (E : Event) (a : EventSet) (t : List EventSet)
    (h : ¬ a.Spec.Match.Match E = true) :
    dispatchNames (a :: t) E = dispatchNames t E := by
  simp [dispatchNames, List.filter_cons, h]

/-- Writes to the sink registered under `n` are as many as the occurrences
of `n` in a binding list, when no other name holds the same sink object. -/
theorem sinkRefs_count {W : Type} (w : Watcher W) (n : String) (S : Sink W) (E : Event)
    (h : w.sinks n = some S)
    (hinj : ∀ k T, w.sinks k = some T → T.ref = S.ref → k = n)
    (l : List LocalObjectReference) :
    ((l.filterMap (fun r => w.sinks r.Name)).map (fun s => Call.Write s.ref E)).count
        (Call.Write S.ref E) = (l.map (fun r => r.Name)).count n := by
  induction l with
  | nil => simp
  | cons r t ih =>
    cases hr : w.sinks r.Name with
    | none =>
      have hne : ¬ r.Name = n := by
        intro e; rw [e, h] at hr; exact absurd hr (by simp)
      simp only [List.filterMap_cons, hr, List.map_cons]
      rw [List.count_cons, ih]
      simp [hne]
    | some T =>
      by_cases href : T.ref = S.ref
      · have hk : r.Name = n := hinj r.Name T hr href
        simp only [List.filterMap_cons, hr, List.map_cons]
        rw [List.count_cons, List.count_cons, ih]
        simp [href, hk]
      · have hne : ¬ r.Name = n := by
          intro e; rw [e, h] at hr
          exact href (by injection hr with hr; rw [hr])
        simp only [List.filterMap_cons, hr, List.map_cons]
        rw [List.count_cons, List.count_cons, ih]
        simp [href, hne]

theorem dispatchTargets_count {W : Type} (w : Watcher W) (n : String) (S : Sink W) (E : Event)
    (h : w.sinks n = some S)
    (hinj : ∀ k T, w.sinks k = some T → T.ref = S.ref → k = n)
    (sets : List EventSet) :
    ((dispatchTargets w sets E).map (fun s => Call.Write s.ref E)).count (Call.Write S.ref E) =
      (dispatchNames sets E).count n := by
  induction sets with
  | nil => simp [dispatchTargets, dispatchNames]
  | cons a t ih =>
    by_cases hm : a.Spec.Match.Match E = true
    · rw [dispatchTargets_cons_match w E a t hm, dispatchNames_cons_match E a t hm,
        List.map_append, List.count_append, List.count_append, ih,
        sinkRefs_count w n S E h hinj]
    · rw [dispatchTargets_cons_skip w E a t hm, dispatchNames_cons_skip E a t hm, ih]

/-- Claim C12, counterexample. The event of type Warning and reason Failed
matches both the rule-set with type Warning bound to `[s, t]` and the
rule-set with reasons `[Failed]` bound to `[s]`; one dispatch writes it to
the sink registered under `s` twice, not at most once. -/
theorem dispatch_duplicate_write :
    EventFilter.Match { Type_ := "Warning" } { Type_ := "Warning", Reason := "Failed" } = true ∧
    EventFilter.Match { Reasons := some ["Failed"] }
      { Type_ := "Warning", Reason := "Failed" } = true ∧
    ((Watcher.mk (mapSet (fun _ => none) "s" (quietSink 1))).handler
        (Except.ok [⟨"a", ⟨{ Type_ := "Warning" }, [⟨"s"⟩, ⟨"t"⟩]⟩⟩,
          ⟨"b", ⟨{ Reasons := some ["Failed"] }, [⟨"s"⟩]⟩⟩])
        (Obj.event { Type_ := "Warning", Reason := "Failed" }) ⟨(), [], []⟩).calls =
      [Call.Write 1 { Type_ := "Warning", Reason := "Failed" },
        Call.Write 1 { Type_ := "Warning", Reason := "Failed" }] ∧
    ¬ (((Watcher.mk (mapSet (fun _ => none) "s" (quietSink 1))).handler
        (Except.ok [⟨"a", ⟨{ Type_ := "Warning" }, [⟨"s"⟩, ⟨"t"⟩]⟩⟩,
          ⟨"b", ⟨{ Reasons := some ["Failed"] }, [⟨"s"⟩]⟩⟩])
        (Obj.event { Type_ := "Warning", Reason := "Failed" }) ⟨(), [], []⟩).calls.count
          (Call.Write 1 { Type_ := "Warning", Reason := "Failed" }) ≤ 1) := by
  have hcalls : ((Watcher.mk (mapSet (fun _ => none) "s" (quietSink 1))).handler
        (Except.ok [⟨"a", ⟨{ Type_ := "Warning" }, [⟨"s"⟩, ⟨"t"⟩]⟩⟩,
          ⟨"b", ⟨{ Reasons := some ["Failed"] }, [⟨"s"⟩]⟩⟩])
        (Obj.event { Type_ := "Warning", Reason := "Failed" }) ⟨(), [], []⟩).calls =
      [Call.Write 1 { Type_ := "Warning", Reason := "Failed" },
        Call.Write 1 { Type_ := "Warning", Reason := "Failed" }] := by
    simp [Watcher.handler, eventSetsLoop, sinkRefsLoop, EventFilter.Match, reasonsMatched,
      mapSet, callWrite, quietSink, Env.logError]
  refine ⟨?_, ?_, hcalls, ?_⟩
  · simp [EventFilter.Match]
  · simp [EventFilter.Match, reasonsMatched]
  · rw [hcalls]
    simp

/-- Claim C12, amended. One dispatch writes the event to the sink
registered under `n` once for every occurrence of `n` in the binding lists
of the rule-sets that match (no other name holding the same sink object):
a sink named by two matching rule-sets is written twice. -/
theorem dispatch_write_per_occurrence {W : Type} (w : Watcher W) (sets : List EventSet)
    (E : Event) (n : String) (S : Sink W) (env : Env W)
    (h : w.sinks n = some S)
    (hinj : ∀ k T, w.sinks k = some T → T.ref = S.ref → k = n) :
    (w.handler (Except.ok sets) (Obj.event E) env).calls.count (Call.Write S.ref E) =
      env.calls.count (Call.Write S.ref E) + (dispatchNames sets E).count n := by
  simp only [Watcher.handler]
  rw [eventSetsLoop_calls, List.count_append, dispatchTargets_count w n S E h hinj]

/-- Witness for C12 amended: two matching rule-sets that both name `s`. -/
theorem dispatch_write_per_occurrence_witness :
    (Watcher.mk (mapSet (fun _ => none) "s" (quietSink 1))).sinks "s" = some (quietSink 1) ∧
    ((Watcher.mk (mapSet (fun _ => none) "s" (quietSink 1))).handler
        (Except.ok [⟨"a", ⟨{ Type_ := "Warning" }, [⟨"s"⟩, ⟨"t"⟩]⟩⟩,
          ⟨"b", ⟨{ Reasons := some ["Failed"] }, [⟨"s"⟩]⟩⟩])
        (Obj.event { Type_ := "Warning", Reason := "Failed" }) ⟨(), [], []⟩).calls.count
          (Call.Write (quietSink 1).ref { Type_ := "Warning", Reason := "Failed" }) =
      (([] : List Call).count (Call.Write (quietSink 1).ref
          { Type_ := "Warning", Reason := "Failed" })) +
        (dispatchNames [⟨"a", ⟨{ Type_ := "Warning" }, [⟨"s"⟩, ⟨"t"⟩]⟩⟩,
          ⟨"b", ⟨{ Reasons := some ["Failed"] }, [⟨"s"⟩]⟩⟩]
          { Type_ := "Warning", Reason := "Failed" }).count "s" :=
  ⟨by simp [mapSet],
    dispatch_write_per_occurrence (Watcher.mk (mapSet (fun _ => none) "s" (quietSink 1)))
      [⟨"a", ⟨{ Type_ := "Warning" }, [⟨"s"⟩, ⟨"t"⟩]⟩⟩,
        ⟨"b", ⟨{ Reasons := some ["Failed"] }, [⟨"s"⟩]⟩⟩]
      { Type_ := "Warning", Reason := "Failed" } "s" (quietSink 1) ⟨(), [], []⟩
      (by simp [mapSet])
      (by
        intro k T hk _
        by_cases hks : k = "s"
        · exact hks
        · simp [mapSet, hks] at hk)⟩

/-! ## Runs of the bulk-index sink over its channel -/

theorem step_done_flush (grow : Nat → Nat) (es : ElasticSink) :
    (flushes (es.step grow Select.done).actions).flatten = es.eventBatch.elems ∧
    (es.step grow Select.done).returned = true := by
  obtain ⟨idx, ⟨buf, cap⟩, ex⟩ := es
  cases buf with
  | nil => simp [ElasticSink.step, flushes]
  | cons a t => simp [ElasticSink.step, flushes]

/-- While the channel is open, one operation keeps the accounting: the
batches flushed are a beginning of the events written, and until the worker
returns the batches flushed, the buffer and the queue are the events
written. -/
theorem ElasticRun_step_open (grow : Nat → Nat) (s : ElasticRun) (op : SinkOp)
    (hop : op ≠ SinkOp.Stop) (hopen : s.eventChan.closed = false)
    (hpre : (flushes s.actions).flatten <+: s.written)
    (hacc : s.returned = false →
      (flushes s.actions).flatten ++ s.es.eventBatch.elems ++ s.eventChan.queue = s.written) :
    (s.step grow op).eventChan.closed = false ∧
    (flushes (s.step grow op).actions).flatten <+: (s.step grow op).written ∧
    ((s.step grow op).returned = false →
      (flushes (s.step grow op).actions).flatten ++ (s.step grow op).es.eventBatch.elems ++
        (s.step grow op).eventChan.queue = (s.step grow op).written) := by
  obtain ⟨es, ⟨queue, closed, cap⟩, actions, written, returned, crashed⟩ := s
  simp only at hopen hpre hacc
  subst hopen
  by_cases hdead : (crashed || returned) = true
  · have hsame : ∀ o, o ≠ SinkOp.Stop → ¬ (∃ e, o = SinkOp.Write e) →
        ElasticRun.step grow ⟨es, ⟨queue, false, cap⟩, actions, written, returned, crashed⟩ o =
          ⟨es, ⟨queue, false, cap⟩, actions, written, returned, crashed⟩ := by
      intro o ho hw
      cases o with
      | Write e => exact absurd ⟨e, rfl⟩ hw
      | Stop => exact absurd rfl ho
      | recv => simp [ElasticRun.step, hdead]
      | tick => simp [ElasticRun.step, hdead]
      | done => simp [ElasticRun.step, hdead]
    cases op with
    | Write e =>
      cases crashed with
      | true =>
        have hst : ElasticRun.step grow ⟨es, ⟨queue, false, cap⟩, actions, written, returned, true⟩
            (SinkOp.Write e) = ⟨es, ⟨queue, false, cap⟩, actions, written, returned, true⟩ := by
          simp [ElasticRun.step]
        rw [hst]; exact ⟨rfl, hpre, hacc⟩
      | false =>
        by_cases hroom : queue.length < cap
        · simp only [ElasticRun.step, Chan.send, hroom]
          refine ⟨rfl, hpre.trans (List.prefix_append _ _), ?_⟩
          intro hr
          simp only [Bool.false_eq_true, if_false] at hr ⊢
          rw [← hacc hr]
          simp [List.append_assoc]
        · have hst : ElasticRun.step grow
              ⟨es, ⟨queue, false, cap⟩, actions, written, returned, false⟩ (SinkOp.Write e) =
              ⟨es, ⟨queue, false, cap⟩, actions, written, returned, false⟩ := by
            simp [ElasticRun.step, Chan.send, hroom]
          rw [hst]; exact ⟨rfl, hpre, hacc⟩
    | Stop => exact absurd rfl hop
    | recv => rw [hsame _ (by simp) (by simp)]; exact ⟨rfl, hpre, hacc⟩
    | tick => rw [hsame _ (by simp) (by simp)]; exact ⟨rfl, hpre, hacc⟩
    | done => rw [hsame _ (by simp) (by simp)]; exact ⟨rfl, hpre, hacc⟩
  · have hc : crashed = false := by
      cases crashed <;> simp_all
    have hr : returned = false := by
      cases returned <;> simp_all
    subst hc hr
    have hacc2 := hacc rfl
    cases op with
    | Write e =>
      by_cases hroom : queue.length < cap
      · simp only [ElasticRun.step, Chan.send, hroom]
        refine ⟨rfl, hpre.trans (List.prefix_append _ _), ?_⟩
        intro _
        simp only [Bool.false_eq_true, if_false]
        rw [← hacc2]
        simp [List.append_assoc]
      · have hst : ElasticRun.step grow
            ⟨es, ⟨queue, false, cap⟩, actions, written, false, false⟩ (SinkOp.Write e) =
            ⟨es, ⟨queue, false, cap⟩, actions, written, false, false⟩ := by
          simp [ElasticRun.step, Chan.send, hroom]
        rw [hst]; exact ⟨rfl, hpre, hacc⟩
    | Stop => exact absurd rfl hop
    | recv =>
      cases queue with
      | nil =>
        have hst : ElasticRun.step grow
            ⟨es, ⟨[], false, cap⟩, actions, written, false, false⟩ SinkOp.recv =
            ⟨es, ⟨[], false, cap⟩, actions, written, false, false⟩ := by
          simp [ElasticRun.step, Chan.recv]
        rw [hst]; exact ⟨rfl, hpre, hacc⟩
      | cons e rest =>
        have hs := step_accounting grow es (Select.recv e) (by simp)
        have hn := step_not_returned grow es (Select.recv e) (by simp)
        have heq : (flushes actions).flatten ++
            (flushes (es.step grow (Select.recv e)).actions).flatten ++
            (es.step grow (Select.recv e)).es.eventBatch.elems ++ rest = written := by
          rw [List.append_assoc (flushes actions).flatten, hs, ← hacc2]
          simp [received, List.append_assoc]
        simp only [ElasticRun.step, Chan.recv, Bool.or_self, Bool.false_eq_true, if_false,
          flushes_append, List.flatten_append]
        refine ⟨trivial, ⟨_, by rw [← List.append_assoc]; exact heq⟩, fun _ => heq⟩
    | tick =>
      have hs := step_accounting grow es Select.tick (by simp)
      have heq : (flushes actions).flatten ++
          (flushes (es.step grow Select.tick).actions).flatten ++
          (es.step grow Select.tick).es.eventBatch.elems ++ queue = written := by
        rw [List.append_assoc (flushes actions).flatten, hs, ← hacc2]
        simp [received, List.append_assoc]
      simp only [ElasticRun.step, Bool.or_self, Bool.false_eq_true, if_false,
        flushes_append, List.flatten_append]
      refine ⟨trivial, ⟨_, by rw [← List.append_assoc]; exact heq⟩, fun _ => heq⟩
    | done =>
      have hd := step_done_flush grow es
      simp only [ElasticRun.step, Bool.or_self, Bool.false_eq_true, if_false,
        flushes_append, List.flatten_append, hd.1, hd.2]
      refine ⟨trivial, ⟨queue, by rw [hacc2]⟩, ?_⟩
      intro h
      exact absurd h (by simp)

/-- In every run in which `Stop` is never called, the batches flushed are a
beginning of the sequence of events written. -/
theorem ElasticRun_open_flushes (grow : Nat → Nat) (ops : List SinkOp) (s : ElasticRun)
    (hops : SinkOp.Stop ∉ ops) (hopen : s.eventChan.closed = false)
    (hpre : (flushes s.actions).flatten <+: s.written)
    (hacc : s.returned = false →
      (flushes s.actions).flatten ++ s.es.eventBatch.elems ++ s.eventChan.queue = s.written) :
    (flushes (s.run grow ops).actions).flatten <+: (s.run grow ops).written := by
  induction ops generalizing s with
  | nil => simpa [ElasticRun.run] using hpre
  | cons op rest ih =>
    have hop : op ≠ SinkOp.Stop := fun e => hops (by simp [e])
    have hrest : SinkOp.Stop ∉ rest := fun e => hops (by simp [e])
    have hs := ElasticRun_step_open grow s op hop hopen hpre hacc
    simpa [ElasticRun.run] using ih (s.step grow op) hrest hs.1 hs.2.1 hs.2.2

/-- Claim C14, the code at the failing input. A sink with batch size 2 is
written one event, then `Stop` closes its channel while the worker is still
running. The next receive rounds of the worker take the queued event and
then zero-valued events from the closed channel: the worker flushes a batch
holding the written event and a zero-valued event, then a batch of two
zero-valued events. The zero-valued event was never written, and the
batches flushed are not a beginning of the events written. -/
theorem closed_channel_flushes_zero_events :
    flushes (ElasticRun.run (fun n => 2 * n + 1)
        (ElasticRun.start ⟨"events", Slice.make 2, 10000000000⟩)
        [SinkOp.Write { UID := "u1" }, SinkOp.Stop, SinkOp.recv, SinkOp.recv, SinkOp.recv,
          SinkOp.recv]).actions =
      [[{ UID := "u1" }, default], [default, default]] ∧
    (ElasticRun.run (fun n => 2 * n + 1)
        (ElasticRun.start ⟨"events", Slice.make 2, 10000000000⟩)
        [SinkOp.Write { UID := "u1" }, SinkOp.Stop, SinkOp.recv, SinkOp.recv, SinkOp.recv,
          SinkOp.recv]).written = [{ UID := "u1" }] ∧
    (default : Event) ∉ (ElasticRun.run (fun n => 2 * n + 1)
        (ElasticRun.start ⟨"events", Slice.make 2, 10000000000⟩)
        [SinkOp.Write { UID := "u1" }, SinkOp.Stop, SinkOp.recv, SinkOp.recv, SinkOp.recv,
          SinkOp.recv]).written ∧
    ¬ ((flushes (ElasticRun.run (fun n => 2 * n + 1)
        (ElasticRun.start ⟨"events", Slice.make 2, 10000000000⟩)
        [SinkOp.Write { UID := "u1" }, SinkOp.Stop, SinkOp.recv, SinkOp.recv, SinkOp.recv,
          SinkOp.recv]).actions).flatten <+:
      (ElasticRun.run (fun n => 2 * n + 1)
        (ElasticRun.start ⟨"events", Slice.make 2, 10000000000⟩)
        [SinkOp.Write { UID := "u1" }, SinkOp.Stop, SinkOp.recv, SinkOp.recv, SinkOp.recv,
          SinkOp.recv]).written) := by
  have hrun : ElasticRun.run (fun n => 2 * n + 1)
        (ElasticRun.start ⟨"events", Slice.make 2, 10000000000⟩)
        [SinkOp.Write { UID := "u1" }, SinkOp.Stop, SinkOp.recv, SinkOp.recv, SinkOp.recv,
          SinkOp.recv] =
      ⟨⟨"events", Slice.make 2, 10000000000⟩, ⟨[], true, 50⟩,
        [Action.writeBatch [{ UID := "u1" }, default], Action.timerReset,
          Action.writeBatch [default, default], Action.timerReset],
        [{ UID := "u1" }], false, false⟩ := by
    simp [ElasticRun.run, ElasticRun.step, ElasticRun.start, Chan.make, Chan.send, Chan.close,
      Chan.recv, resultChanSize, ElasticSink.step, Slice.append, Slice.reset, Slice.make]
  rw [hrun]
  refine ⟨by simp [flushes], rfl, ?_, ?_⟩
  · simp
    decide
  · simp [flushes]

/-! ## The final flush at shutdown -/

/-- A `writeBatch` call made with a cancelled context sends nothing. -/
theorem writeBatch_cancelled (J : Json) (client : Client) (es : ElasticSink)
    (events : List Event) : (es.writeBatch J client true events).1 = [] := by
  simp [ElasticSink.writeBatch, ElasticSink.createBody, BulkRequest.Do]

/-- A `writeBatch` call made with a live context sends the bulk body. -/
theorem writeBatch_live (J : Json) (client : Client) (es : ElasticSink)
    (events : List Event) :
    (es.writeBatch J client false events).1 =
      [{ Index := es.indexName, Body := (es.createBody J events).1 }] := by
  simp only [ElasticSink.writeBatch, ElasticSink.createBody, BulkRequest.Do]
  cases h : client.serve
      { Index := es.indexName, Body := (createBodyLoop J es.indexName events "" []).1 } with
  | error err => simp
  | ok resp =>
    by_cases hs : resp.StatusCode > 399 <;> simp [hs]

/-- Claim C4, the code at the failing input. A sink with batch size 3 is
written the events a, b and c; the worker receives a, then the context is
cancelled and the worker takes the shutdown case. It returns after exactly
one `writeBatch` call, with the batch `[a]`: the events b and c, written
and still queued in the channel, are in no batch. That call is made with
the cancelled context, so for every endpoint and serialization no request
reaches the endpoint: the final batch is never sent, while the same call
under a live context sends its bulk body. -/
theorem shutdown_final_flush_not_sent (J : Json) (client : Client) :
    flushes (ElasticRun.run (fun n => 2 * n + 1)
        (ElasticRun.start ⟨"events", Slice.make 3, 10000000000⟩)
        [SinkOp.Write { UID := "a" }, SinkOp.Write { UID := "b" }, SinkOp.Write { UID := "c" },
          SinkOp.recv, SinkOp.done]).actions = [[{ UID := "a" }]] ∧
    (ElasticRun.run (fun n => 2 * n + 1)
        (ElasticRun.start ⟨"events", Slice.make 3, 10000000000⟩)
        [SinkOp.Write { UID := "a" }, SinkOp.Write { UID := "b" }, SinkOp.Write { UID := "c" },
          SinkOp.recv, SinkOp.done]).returned = true ∧
    (ElasticRun.run (fun n => 2 * n + 1)
        (ElasticRun.start ⟨"events", Slice.make 3, 10000000000⟩)
        [SinkOp.Write { UID := "a" }, SinkOp.Write { UID := "b" }, SinkOp.Write { UID := "c" },
          SinkOp.recv, SinkOp.done]).written = [{ UID := "a" }, { UID := "b" }, { UID := "c" }] ∧
    (ElasticRun.run (fun n => 2 * n + 1)
        (ElasticRun.start ⟨"events", Slice.make 3, 10000000000⟩)
        [SinkOp.Write { UID := "a" }, SinkOp.Write { UID := "b" }, SinkOp.Write { UID := "c" },
          SinkOp.recv, SinkOp.done]).eventChan.queue = [{ UID := "b" }, { UID := "c" }] ∧
    (ElasticSink.step (fun n => 2 * n + 1)
        ⟨"events", ⟨[{ UID := "a" }], 3⟩, 10000000000⟩ Select.done).actions =
      [Action.writeBatch [{ UID := "a" }]] ∧
    (ElasticSink.shutdown J client (fun n => 2 * n + 1)
        ⟨"events", ⟨[{ UID := "a" }], 3⟩, 10000000000⟩).1 = [] ∧
    (ElasticSink.writeBatch J client false ⟨"events", ⟨[{ UID := "a" }], 3⟩, 10000000000⟩
        [{ UID := "a" }]).1 =
      [{ Index := "events",
         Body := (ElasticSink.createBody J ⟨"events", ⟨[{ UID := "a" }], 3⟩, 10000000000⟩
           [{ UID := "a" }]).1 }] := by
  have hrun : ElasticRun.run (fun n => 2 * n + 1)
        (ElasticRun.start ⟨"events", Slice.make 3, 10000000000⟩)
        [SinkOp.Write { UID := "a" }, SinkOp.Write { UID := "b" }, SinkOp.Write { UID := "c" },
          SinkOp.recv, SinkOp.done] =
      ⟨⟨"events", ⟨[{ UID := "a" }], 3⟩, 10000000000⟩, ⟨[{ UID := "b" }, { UID := "c" }], false, 50⟩,
        [Action.writeBatch [{ UID := "a" }]],
        [{ UID := "a" }, { UID := "b" }, { UID := "c" }], true, false⟩ := by
    simp [ElasticRun.run, ElasticRun.step, ElasticRun.start, Chan.make, Chan.send,
      Chan.recv, resultChanSize, ElasticSink.step, Slice.append, Slice.make]
  rw [hrun]
  refine ⟨by simp [flushes], rfl, rfl, rfl, by simp [ElasticSink.step], ?_, ?_⟩
  · simp [ElasticSink.shutdown, ElasticSink.step, ElasticSink.perform, writeBatch_cancelled]
  · exact writeBatch_live J client _ _

end Analytics
